import Mathlib

/-!
Verification of the splay-tree implementation in `src/SplayTree/SplayTree.ts`.

The mutable pointer structure is embedded shallowly: nodes live in a heap
`Nat → SNode α` addressed by ids, the tree holds a root pointer and an
allocation counter, and every field write of the source becomes a functional
heap update performed in the same order as the source statements.  Every
source loop (`splay`, `search`, the insert descent, `findMax`, `inorder`)
is translated with an explicit fuel argument; a `none` result for every
fuel value is a proof that the corresponding source loop never terminates.
-/

namespace ST

structure SNode (α : Type) where
  data : α
  left : Option Nat
  right : Option Nat
  parent : Option Nat
deriving Repr, DecidableEq

structure STree (α : Type) where
  heap : Nat → SNode α
  root : Option Nat
  next : Nat

variable {α : Type} [LinearOrder α]

/-- Write a whole node cell at id `i`. -/
def setCell (t : STree α) (i : Nat) (n : SNode α) : STree α :=
  { t with heap := fun j => if j = i then n else t.heap j }

def setLeft (t : STree α) (i : Nat) (v : Option Nat) : STree α :=
  setCell t i { t.heap i with left := v }

def setRight (t : STree α) (i : Nat) (v : Option Nat) : STree α :=
  setCell t i { t.heap i with right := v }

def setParent (t : STree α) (i : Nat) (v : Option Nat) : STree α :=
  setCell t i { t.heap i with parent := v }

def setRoot (t : STree α) (r : Option Nat) : STree α :=
  { t with root := r }

/-- Constructor of the source class: `this.root = null`. -/
def newTree [Inhabited α] : STree α :=
  { heap := fun _ => ⟨default, none, none, none⟩, root := none, next := 0 }

/-- Source method `getRoot`. -/
def getRoot (t : STree α) : Option Nat := t.root

/-- Source method `leftRotate`, translated statement by statement:
`newParent = node.right`; if present: `node.right = newParent.left`,
reattach that child's parent, `newParent.parent = node.parent`; then the
root-or-child-link update on `node.parent`; finally `newParent.left = node;
node.parent = newParent`. -/
def leftRotate (t : STree α) (node : Nat) : STree α :=
  let newParent := (t.heap node).right
  let t1 :=
    match newParent with
    | none => t
    | some np =>
      let ta := setRight t node ((t.heap np).left)
      let tb :=
        match (ta.heap np).left with
        | none => ta
        | some l => setParent ta l (some node)
      setParent tb np ((tb.heap node).parent)
  let t2 :=
    match (t1.heap node).parent with
    | none => setRoot t1 newParent
    | some p =>
      if (t1.heap p).left = some node then setLeft t1 p newParent
      else setRight t1 p newParent
  match newParent with
  | none => t2
  | some np =>
    let t3 := setLeft t2 np (some node)
    setParent t3 node (some np)

/-- Source method `rightRotate`, translated statement by statement.  The
source reads `newParent.left` (not `newParent.right`) in the first
assignment: `node.left = newParent.left`. -/
def rightRotate (t : STree α) (node : Nat) : STree α :=
  let newParent := (t.heap node).left
  let t1 :=
    match newParent with
    | none => t
    | some np =>
      let ta := setLeft t node ((t.heap np).left)
      let tb :=
        match (ta.heap np).right with
        | none => ta
        | some r => setParent ta r (some node)
      setParent tb np ((tb.heap node).parent)
  let t2 :=
    match (t1.heap node).parent with
    | none => setRoot t1 newParent
    | some p =>
      if (t1.heap p).right = some node then setRight t1 p newParent
      else setLeft t1 p newParent
  match newParent with
  | none => t2
  | some np =>
    let t3 := setRight t2 np (some node)
    setParent t3 node (some np)

/-- Mirror image of `leftRotate` with left and right swapped throughout,
modelled from the spec sentence defining `rightRotate` (compare with the
source translation `rightRotate` above). -/
def rightRotateSpec (t : STree α) (node : Nat) : STree α :=
  let newParent := (t.heap node).left
  let t1 :=
    match newParent with
    | none => t
    | some np =>
      let ta := setLeft t node ((t.heap np).right)
      let tb :=
        match (ta.heap np).right with
        | none => ta
        | some r => setParent ta r (some node)
      setParent tb np ((tb.heap node).parent)
  let t2 :=
    match (t1.heap node).parent with
    | none => setRoot t1 newParent
    | some p =>
      if (t1.heap p).right = some node then setRight t1 p newParent
      else setLeft t1 p newParent
  match newParent with
  | none => t2
  | some np =>
    let t3 := setRight t2 np (some node)
    setParent t3 node (some np)

/-- Descent loop of the source `search`: compare, return on equality, go
left when `node.data > data`, right otherwise.  Outer `none` means the
loop made `fuel` steps without finishing. -/
def searchGo (t : STree α) (key : α) : Nat → Option Nat → Option (Option Nat)
  | 0, _ => none
  | _ + 1, none => some none
  | fuel + 1, some i =>
    if (t.heap i).data = key then some (some i)
    else if (t.heap i).data > key then searchGo t key fuel (t.heap i).left
    else searchGo t key fuel (t.heap i).right

/-- Source method `search`: return `null` on an empty tree, else run the
descent from the root.  No heap cell is written. -/
def search (fuel : Nat) (t : STree α) (key : α) : Option (Option Nat) :=
  match t.root with
  | none => some none
  | some r => searchGo t key fuel (some r)

/-- One iteration of the source `splay` loop body.  `root0` is the local
`root` constant captured before the loop. -/
def splayStep (t : STree α) (node : Nat) (root0 : Nat) : STree α :=
  if (t.heap node).parent = some root0 then
    if (t.heap root0).left = some node then rightRotate t root0
    else leftRotate t root0
  else
    match (t.heap node).parent with
    | none => t
    | some p =>
      match (t.heap p).parent with
      | none => t
      | some gp =>
        if (t.heap gp).left = some p then
          if (t.heap p).left = some node then rightRotate (rightRotate t gp) p
          else rightRotate (leftRotate t p) gp
        else if (t.heap gp).right = some p then
          if (t.heap p).right = some node then leftRotate (leftRotate t gp) p
          else leftRotate (rightRotate t p) gp
        else t

/-- Source `splay` loop: `while (this.root !== node)` run one step. -/
def splayGo (node root0 : Nat) : Nat → STree α → Option (STree α)
  | 0, _ => none
  | fuel + 1, t =>
    if t.root = some node then some t
    else splayGo node root0 fuel (splayStep t node root0)

/-- Source method `splay`: return at once when the tree is empty, else
loop until the node is the root. -/
def splay (fuel : Nat) (t : STree α) (node : Nat) : Option (STree α) :=
  match t.root with
  | none => some t
  | some r => splayGo node r fuel t

/-- Descent loop of the source `insert`: track the last non-null node. -/
def descend (t : STree α) (key : α) : Nat → Option Nat → Option Nat → Option (Option Nat)
  | 0, _, _ => none
  | _ + 1, none, parent => some parent
  | fuel + 1, some c, _ =>
    if key < (t.heap c).data then descend t key fuel (t.heap c).left (some c)
    else descend t key fuel (t.heap c).right (some c)

/-- Source method `insert`: search first and splay the hit; otherwise
allocate a node, attach it under the last node of the failed descent, and
splay it. -/
def insert (fuel : Nat) (t : STree α) (key : α) : Option (STree α) := do
  let found ← search fuel t key
  match found with
  | some node => splay fuel t node
  | none =>
    let newId := t.next
    let t0 : STree α :=
      { heap := fun j => if j = newId then ⟨key, none, none, none⟩ else t.heap j
        root := t.root
        next := t.next + 1 }
    match t0.root with
    | none => pure (setRoot t0 (some newId))
    | some _ => do
      let parent ← descend t0 key fuel t0.root none
      let t1 :=
        match parent with
        | none => t0
        | some p =>
          let ta :=
            if key < (t0.heap p).data then setLeft t0 p (some newId)
            else setRight t0 p (some newId)
          setParent ta newId (some p)
      splay fuel t1 newId

/-- Source method `findMax`: follow right children. -/
def findMaxGo (t : STree α) : Nat → Nat → Option Nat
  | 0, _ => none
  | fuel + 1, i =>
    match (t.heap i).right with
    | none => some i
    | some r => findMaxGo t fuel r

/-- Source method `findMin`: follow left children. -/
def findMinGo (t : STree α) : Nat → Nat → Option Nat
  | 0, _ => none
  | fuel + 1, i =>
    match (t.heap i).left with
    | none => some i
    | some l => findMinGo t fuel l

/-- Source method `delete`: search, splay the hit, then either promote the
maximum of the left subtree (splaying it and taking over the old root's
right child) or promote the right child directly. -/
def delete (fuel : Nat) (t : STree α) (key : α) : Option (STree α) := do
  let found ← search fuel t key
  match found with
  | none => pure t
  | some node => do
    let t1 ← splay fuel t node
    match (t1.heap node).left with
    | some l => do
      let mx ← findMaxGo t1 fuel l
      let t2 ← splay fuel t1 mx
      let t3 := setRight t2 mx ((t2.heap node).right)
      pure (setRoot t3 (some mx))
    | none => pure (setRoot t1 ((t1.heap node).right))

/-- Recursive helper of the source `inorder`. -/
def inorderGo (t : STree α) : Nat → Option Nat → Option (List α)
  | _, none => some []
  | 0, some _ => none
  | fuel + 1, some i => do
    let L ← inorderGo t fuel (t.heap i).left
    let R ← inorderGo t fuel (t.heap i).right
    pure (L ++ (t.heap i).data :: R)

/-- Source method `inorder`. -/
def inorder (fuel : Nat) (t : STree α) : Option (List α) :=
  inorderGo t fuel t.root

/-- Public operations of the tree interface. -/
inductive Op (α : Type) where
  | ins (x : α)
  | del (x : α)
  | lookup (x : α)

/-- Apply one public operation.  `lookup` leaves the state unchanged since
the source `search` contains no assignment. -/
def applyOp [Inhabited α] (fuel : Nat) (t : STree α) : Op α → Option (STree α)
  | .ins x => insert fuel t x
  | .del x => delete fuel t x
  | .lookup x => (search fuel t x).map fun _ => t

/-- Run a sequence of operations starting from the freshly constructed
tree, each with the given fuel. -/
def runOps [Inhabited α] (fuel : Nat) (ops : List (Op α)) : Option (STree α) :=
  ops.foldlM (fun t op => applyOp fuel t op) (newTree : STree α)

end ST

namespace ST

/-! ### Concrete states reached through the public interface -/

/-- State after `insert 1; insert 2; delete 1` on a fresh tree. -/
def tAfterDel : STree Nat :=
  (runOps 32 [Op.ins 1, Op.ins 2, Op.del 1]).getD newTree

/-- State after `insert 1; insert 2; insert 3; delete 2` on a fresh tree. -/
def tAfterDel232 : STree Nat :=
  (runOps 32 [Op.ins 1, Op.ins 2, Op.ins 3, Op.del 2]).getD newTree

/-- Four-node tree: root 0 holds 10 with left child 1 holding 5, whose
children are 2 (holding 3) and 3 (holding 7). -/
def tC2 : STree Nat :=
  { heap := fun j =>
      if j = 0 then ⟨10, some 1, none, none⟩
      else if j = 1 then ⟨5, some 2, some 3, some 0⟩
      else if j = 2 then ⟨3, none, none, some 1⟩
      else if j = 3 then ⟨7, none, none, some 1⟩
      else ⟨0, none, none, none⟩
    root := some 0
    next := 4 }

/-- Single-node tree holding 5 at id 0. -/
def tOne : STree Nat :=
  { heap := fun j => if j = 0 then ⟨5, none, none, none⟩ else ⟨0, none, none, none⟩
    root := some 0
    next := 1 }

/-- Claim C10: a freshly constructed tree is empty: `getRoot()` is absent
and `inorder()` is the empty sequence, for every fuel bound. -/
theorem c10_new_tree_empty :
    getRoot (newTree : STree Nat) = none ∧
    ∀ fuel, inorder fuel (newTree : STree Nat) = some [] := by
  refine ⟨rfl, fun fuel => ?_⟩
  cases fuel <;> rfl

/-- Claim C1 fails on the code: after `insert 1; insert 3; insert 2` the
source `inorder` returns `[1, 2, 1, 3]`, which is not strictly ascending
and repeats the key 1, because the faulty `rightRotate` duplicates the
link to the node holding 1. -/
theorem c1_inorder_not_sorted :
    (runOps 32 [Op.ins 1, Op.ins 3, Op.ins 2] : Option (STree Nat)).bind (inorder 32)
      = some [1, 2, 1, 3]
    ∧ ¬ List.Sorted (· < ·) [1, 2, 1, 3] :=
  ⟨rfl, by decide⟩

/-- Claim C2 fails on the code: on `tC2`, `rightRotate(0)` sets the
rotated node's left child to `l.left` (node 2) where the mirror of
`leftRotate` sets it to `l.right` (node 3, as `rightRotateSpec` does);
node 3 is silently dropped since `l.right` is overwritten with node 0. -/
theorem c2_rightRotate_not_mirror :
    ((rightRotate tC2 0).heap 0).left = some 2
    ∧ ((rightRotateSpec tC2 0).heap 0).left = some 3
    ∧ ((rightRotate tC2 0).heap 1).right = some 0
    ∧ ((rightRotateSpec tC2 0).heap 1).right = some 0 :=
  ⟨rfl, rfl, rfl, rfl⟩

/-- Claim C3 fails on the code: rotating the root of a single-node tree,
where the required child is absent, is not a no-op: both rotations set the
tree's root pointer to absent, losing the whole tree. -/
theorem c3_rotation_missing_child_not_noop :
    tOne.root = some 0
    ∧ (leftRotate tOne 0).root = none
    ∧ (rightRotate tOne 0).root = none :=
  ⟨rfl, rfl, rfl⟩

/-- Claim C4 fails on the code: after `insert 1; insert 2; delete 1` the
root is the node holding 2 (id 1) but its parent link still points at the
deleted node (id 0) instead of being absent; `delete` never clears the
promoted child's parent link. -/
theorem c4_root_parent_not_absent :
    (runOps 32 [Op.ins 1, Op.ins 2, Op.del 1] : Option (STree Nat)).map
      (fun t => (getRoot t, (t.heap 1).parent)) = some (some 1, some 0) :=
  rfl

/-- Claim C7 fails on the code: in `delete 2` after `insert 1; insert 2;
insert 3`, the splay of the predecessor (node 0, key 1) rotates the
soon-discarded root (node 1, key 2) below it — its parent link ends at the
predecessor — and the reattached right child (node 2, key 3) keeps its
parent link pointing at the deleted node instead of the predecessor. -/
theorem c7_delete_splay_crosses_boundary :
    tAfterDel232.root = some 0
    ∧ (tAfterDel232.heap 0).data = 1
    ∧ (tAfterDel232.heap 0).right = some 2
    ∧ (tAfterDel232.heap 2).parent = some 1
    ∧ (tAfterDel232.heap 1).parent = some 0 :=
  ⟨rfl, rfl, rfl, rfl, rfl⟩

end ST

namespace ST

/-- Allocation state inside `insert 3` on `tAfterDel`. -/
def tAlloc : STree Nat :=
  { heap := fun j => if j = tAfterDel.next then ⟨3, none, none, none⟩ else tAfterDel.heap j
    root := tAfterDel.root
    next := tAfterDel.next + 1 }

/-- State after the new node 2 is attached as right child of node 1. -/
def tIns : STree Nat := setParent (setRight tAlloc 1 (some tAfterDel.next)) tAfterDel.next (some 1)

/-- State after the first splay iteration inside `insert 3`; the loop can
never leave this state. -/
def tStuck : STree Nat := splayStep tIns 2 1

theorem splayStep_tStuck_fix : splayStep tStuck 2 1 = tStuck := rfl

theorem splayGo_tStuck : ∀ f, splayGo 2 1 f tStuck = (none : Option (STree Nat)) := by
  intro f
  induction f with
  | zero => rfl
  | succ f ih =>
    rw [splayGo]
    rw [if_neg (show ¬(tStuck.root = some 2) by decide)]
    rw [splayStep_tStuck_fix]
    exact ih

/-- Claim C5 fails on the code: on the state reached by `insert 1;
insert 2; delete 1`, the call `insert 3` never terminates for any fuel
bound: its final splay loops forever because the stale parent pointer left
by `delete` prevents the zig-zig and zig-zag guards from ever firing, so
no post-state with the new key at the root ever exists. -/
theorem c5_insert_diverges : ∀ fuel, insert fuel tAfterDel 3 = none := by
  intro fuel
  match fuel with
  | 0 => rfl
  | 1 => rfl
  | n + 2 =>
    have h : insert (n + 2) tAfterDel 3 = splayGo 2 1 (n + 1) tStuck := rfl
    rw [h]
    exact splayGo_tStuck (n + 1)

theorem searchGo_c232 : ∀ f, searchGo tAfterDel232 2 f (some 0) = none
    ∧ searchGo tAfterDel232 2 f (some 2) = none := by
  intro f
  induction f with
  | zero => exact ⟨rfl, rfl⟩
  | succ f ih =>
    constructor
    · have h : searchGo tAfterDel232 2 (f + 1) (some 0) = searchGo tAfterDel232 2 f (some 2) := rfl
      rw [h]; exact ih.2
    · have h : searchGo tAfterDel232 2 (f + 1) (some 2) = searchGo tAfterDel232 2 f (some 0) := rfl
      rw [h]; exact ih.1

/-- Claim C6 fails on the code: after `insert 1; insert 2; insert 3;
delete 2`, the tree contains the cycle 0 → 2 → 0, and `search 2` loops
forever on it for every fuel bound instead of returning absent. -/
theorem c6_delete_then_search_diverges :
    ∀ fuel, (runOps 32 [Op.ins 1, Op.ins 2, Op.ins 3, Op.del 2] : Option (STree Nat)).bind
      (fun t => search fuel t 2) = none := by
  intro fuel
  have h : (runOps 32 [Op.ins 1, Op.ins 2, Op.ins 3, Op.del 2] : Option (STree Nat)).bind
      (fun t => search fuel t 2) = searchGo tAfterDel232 2 fuel (some 0) := rfl
  rw [h]
  exact (searchGo_c232 fuel).1

/-- Counterexample for claim C8: on the tree reached by `insert 1;
insert 2; insert 3; delete 2`, `search 2` neither returns a node nor
absent for any fuel bound — the descent cycles forever — so the return
clause of the claim fails on this tree. -/
theorem c8_search_diverges_on_reachable_tree :
    ¬ ∃ (fuel : Nat) (r : Option Nat), search fuel tAfterDel232 2 = some r := by
  rintro ⟨fuel, r, hr⟩
  have h : search fuel tAfterDel232 2 = searchGo tAfterDel232 2 fuel (some 0) := rfl
  rw [h, (searchGo_c232 fuel).1] at hr
  exact Option.noConfusion hr

theorem searchGo_sound {β : Type} [LinearOrder β] (t : STree β) (key : β) :
    ∀ (f : Nat) (l : Option Nat) (i : Nat),
      searchGo t key f l = some (some i) → (t.heap i).data = key := by
  intro f
  induction f with
  | zero =>
    intro l i h
    simp [searchGo] at h
  | succ f ih =>
    intro l i h
    match l with
    | none => simp [searchGo] at h
    | some j =>
      rw [searchGo] at h
      by_cases hd : (t.heap j).data = key
      · rw [if_pos hd] at h
        injection h with h1
        injection h1 with h2
        rw [← h2]; exact hd
      · rw [if_neg hd] at h
        by_cases hgt : (t.heap j).data > key
        · rw [if_pos hgt] at h; exact ih _ i h
        · rw [if_neg hgt] at h; exact ih _ i h

/-- Amended claim C8: `search` performs no mutation — as an operation it
returns the tree state unchanged, in particular it never splays — and
whenever its descent terminates, any node it returns holds the searched
key.  The original unconditional return clause fails only because the
descent need not terminate on trees the interface can reach. -/
theorem c8_search_pure_and_sound {β : Type} [LinearOrder β] [Inhabited β]
    (fuel : Nat) (t : STree β) (key : β) (r : Option Nat)
    (h : search fuel t key = some r) :
    applyOp fuel t (Op.lookup key) = some t ∧ ∀ i, r = some i → (t.heap i).data = key := by
  constructor
  · show (search fuel t key).map (fun _ => t) = some t
    rw [h]; rfl
  · intro i hi
    subst hi
    unfold search at h
    match ht : t.root with
    | none => rw [ht] at h; injection h with h1; exact absurd h1 (by simp)
    | some rt => rw [ht] at h; exact searchGo_sound t key fuel (some rt) i h

/-- Witness for the amended claim C8 at a concrete input. -/
theorem c8_witness :
    applyOp 5 tOne (Op.lookup 5) = some tOne ∧ (tOne.heap 0).data = 5 :=
  ⟨(c8_search_pure_and_sound 5 tOne 5 (some 0) rfl).1,
   (c8_search_pure_and_sound 5 tOne 5 (some 0) rfl).2 0 rfl⟩

end ST

namespace ST

variable {α : Type}

theorem heap_setLeft (t : STree α) (i : Nat) (v : Option Nat) (j : Nat) :
    (setLeft t i v).heap j = if j = i then { t.heap i with left := v } else t.heap j := rfl

theorem heap_setRight (t : STree α) (i : Nat) (v : Option Nat) (j : Nat) :
    (setRight t i v).heap j = if j = i then { t.heap i with right := v } else t.heap j := rfl

theorem heap_setParent (t : STree α) (i : Nat) (v : Option Nat) (j : Nat) :
    (setParent t i v).heap j = if j = i then { t.heap i with parent := v } else t.heap j := rfl

theorem root_setLeft (t : STree α) (i : Nat) (v : Option Nat) : (setLeft t i v).root = t.root := rfl

theorem root_setRight (t : STree α) (i : Nat) (v : Option Nat) : (setRight t i v).root = t.root := rfl

theorem root_setParent (t : STree α) (i : Nat) (v : Option Nat) : (setParent t i v).root = t.root := rfl

theorem root_setRoot (t : STree α) (r : Option Nat) : (setRoot t r).root = r := rfl

theorem heap_setRoot (t : STree α) (r : Option Nat) (j : Nat) : (setRoot t r).heap j = t.heap j := rfl

/-- Links of a heap cell, ignoring the stored data. -/
def sameLinks (x y : SNode α) : Prop :=
  x.left = y.left ∧ x.right = y.right ∧ x.parent = y.parent

theorem rightRotate_heap_n (t : STree α) (n l : Nat)
    (h1 : (t.heap n).left = some l) (h2 : l ≠ n)
    (h3 : (t.heap l).right ≠ some n)
    (h4 : (t.heap l).right ≠ some l)
    (h5 : (t.heap n).parent ≠ some n)
    (h6 : (t.heap n).parent ≠ some l)
    (h7 : ∀ p, (t.heap n).parent = some p → (t.heap l).right ≠ some p) :
    ((rightRotate t n).heap n).left = (t.heap l).left
    ∧ ((rightRotate t n).heap n).right = (t.heap n).right
    ∧ ((rightRotate t n).heap n).parent = some l := by
  have h2' : n ≠ l := Ne.symm h2
  rcases hR : (t.heap l).right with _ | rr <;>
    rcases hP : (t.heap n).parent with _ | p
  · simp [rightRotate, h1, hR, hP, heap_setLeft, heap_setRight, heap_setParent, heap_setRoot, h2, h2']
  · have hpn : p ≠ n := fun e => h5 (e ▸ hP)
    have hpl : p ≠ l := fun e => h6 (e ▸ hP)
    by_cases hside : (t.heap p).right = some n <;>
      simp [rightRotate, h1, hR, hP, hside, heap_setLeft, heap_setRight, heap_setParent,
        heap_setRoot, h2, h2', hpn, Ne.symm hpn, hpl, Ne.symm hpl]
  · have hrn : rr ≠ n := fun e => h3 (hR.trans (congrArg some e))
    have hrl : rr ≠ l := fun e => h4 (hR.trans (congrArg some e))
    simp [rightRotate, h1, hR, hP, heap_setLeft, heap_setRight, heap_setParent, heap_setRoot,
      h2, h2', hrn, Ne.symm hrn, hrl, Ne.symm hrl]
  · have hpn : p ≠ n := fun e => h5 (e ▸ hP)
    have hpl : p ≠ l := fun e => h6 (e ▸ hP)
    have hrn : rr ≠ n := fun e => h3 (hR.trans (congrArg some e))
    have hrl : rr ≠ l := fun e => h4 (hR.trans (congrArg some e))
    have hrp : rr ≠ p := fun e => h7 p hP (hR.trans (congrArg some e))
    by_cases hside : (t.heap p).right = some n <;>
      simp [rightRotate, h1, hR, hP, hside, heap_setLeft, heap_setRight, heap_setParent,
        heap_setRoot, h2, h2', hpn, Ne.symm hpn, hpl, Ne.symm hpl, hrn, Ne.symm hrn,
        hrl, Ne.symm hrl, hrp, Ne.symm hrp]

end ST

namespace ST

variable {α : Type}

theorem rightRotate_heap_l (t : STree α) (n l : Nat)
    (h1 : (t.heap n).left = some l) (h2 : l ≠ n)
    (h3 : (t.heap l).right ≠ some n)
    (h4 : (t.heap l).right ≠ some l)
    (h5 : (t.heap n).parent ≠ some n)
    (h6 : (t.heap n).parent ≠ some l)
    (h7 : ∀ p, (t.heap n).parent = some p → (t.heap l).right ≠ some p) :
    ((rightRotate t n).heap l).left = (t.heap l).left
    ∧ ((rightRotate t n).heap l).right = some n
    ∧ ((rightRotate t n).heap l).parent = (t.heap n).parent := by
  have h2' : n ≠ l := Ne.symm h2
  rcases hR : (t.heap l).right with _ | rr <;>
    rcases hP : (t.heap n).parent with _ | p
  · simp [rightRotate, h1, hR, hP, heap_setLeft, heap_setRight, heap_setParent, heap_setRoot, h2, h2']
  · have hpn : p ≠ n := fun e => h5 (e ▸ hP)
    have hpl : p ≠ l := fun e => h6 (e ▸ hP)
    by_cases hside : (t.heap p).right = some n <;>
      simp [rightRotate, h1, hR, hP, hside, heap_setLeft, heap_setRight, heap_setParent,
        heap_setRoot, h2, h2', hpn, Ne.symm hpn, hpl, Ne.symm hpl]
  · have hrn : rr ≠ n := fun e => h3 (hR.trans (congrArg some e))
    have hrl : rr ≠ l := fun e => h4 (hR.trans (congrArg some e))
    simp [rightRotate, h1, hR, hP, heap_setLeft, heap_setRight, heap_setParent, heap_setRoot,
      h2, h2', hrn, Ne.symm hrn, hrl, Ne.symm hrl]
  · have hpn : p ≠ n := fun e => h5 (e ▸ hP)
    have hpl : p ≠ l := fun e => h6 (e ▸ hP)
    have hrn : rr ≠ n := fun e => h3 (hR.trans (congrArg some e))
    have hrl : rr ≠ l := fun e => h4 (hR.trans (congrArg some e))
    have hrp : rr ≠ p := fun e => h7 p hP (hR.trans (congrArg some e))
    by_cases hside : (t.heap p).right = some n <;>
      simp [rightRotate, h1, hR, hP, hside, heap_setLeft, heap_setRight, heap_setParent,
        heap_setRoot, h2, h2', hpn, Ne.symm hpn, hpl, Ne.symm hpl, hrn, Ne.symm hrn,
        hrl, Ne.symm hrl, hrp, Ne.symm hrp]

theorem rightRotate_root_none (t : STree α) (n l : Nat)
    (h1 : (t.heap n).left = some l) (h2 : l ≠ n)
    (h3 : (t.heap l).right ≠ some n)
    (hP : (t.heap n).parent = none) :
    (rightRotate t n).root = some l := by
  have h2' : n ≠ l := Ne.symm h2
  rcases hR : (t.heap l).right with _ | rr
  · simp [rightRotate, h1, hR, hP, heap_setLeft, heap_setRight, heap_setParent, heap_setRoot,
      root_setLeft, root_setRight, root_setParent, root_setRoot, h2, h2']
  · have hrn : rr ≠ n := fun e => h3 (hR.trans (congrArg some e))
    simp [rightRotate, h1, hR, hP, heap_setLeft, heap_setRight, heap_setParent, heap_setRoot,
      root_setLeft, root_setRight, root_setParent, root_setRoot, h2, h2', hrn, Ne.symm hrn]

theorem rightRotate_root_some (t : STree α) (n l p : Nat)
    (h1 : (t.heap n).left = some l) (h2 : l ≠ n)
    (h3 : (t.heap l).right ≠ some n)
    (h6 : (t.heap n).parent ≠ some l)
    (h7 : ∀ q, (t.heap n).parent = some q → (t.heap l).right ≠ some q)
    (h5 : (t.heap n).parent ≠ some n)
    (hP : (t.heap n).parent = some p) :
    (rightRotate t n).root = t.root := by
  have h2' : n ≠ l := Ne.symm h2
  have hpn : p ≠ n := fun e => h5 (e ▸ hP)
  have hpl : p ≠ l := fun e => h6 (e ▸ hP)
  rcases hR : (t.heap l).right with _ | rr
  · by_cases hside : (t.heap p).right = some n <;>
      simp [rightRotate, h1, hR, hP, hside, heap_setLeft, heap_setRight, heap_setParent,
        heap_setRoot, root_setLeft, root_setRight, root_setParent, root_setRoot,
        h2, h2', hpn, Ne.symm hpn, hpl, Ne.symm hpl]
  · have hrn : rr ≠ n := fun e => h3 (hR.trans (congrArg some e))
    have hrp : rr ≠ p := fun e => h7 p hP (hR.trans (congrArg some e))
    by_cases hside : (t.heap p).right = some n <;>
      simp [rightRotate, h1, hR, hP, hside, heap_setLeft, heap_setRight, heap_setParent,
        heap_setRoot, root_setLeft, root_setRight, root_setParent, root_setRoot,
        h2, h2', hpn, Ne.symm hpn, hpl, Ne.symm hpl, hrn, Ne.symm hrn, hrp, Ne.symm hrp]

theorem rightRotate_heap_p_right (t : STree α) (n l p : Nat)
    (h1 : (t.heap n).left = some l) (h2 : l ≠ n)
    (h3 : (t.heap l).right ≠ some n)
    (h5 : (t.heap n).parent ≠ some n)
    (h6 : (t.heap n).parent ≠ some l)
    (h7 : ∀ q, (t.heap n).parent = some q → (t.heap l).right ≠ some q)
    (hP : (t.heap n).parent = some p)
    (hside : (t.heap p).right = some n) :
    ((rightRotate t n).heap p).left = (t.heap p).left
    ∧ ((rightRotate t n).heap p).right = some l
    ∧ ((rightRotate t n).heap p).parent = (t.heap p).parent := by
  have h2' : n ≠ l := Ne.symm h2
  have hpn : p ≠ n := fun e => h5 (e ▸ hP)
  have hpl : p ≠ l := fun e => h6 (e ▸ hP)
  rcases hR : (t.heap l).right with _ | rr
  · simp [rightRotate, h1, hR, hP, hside, heap_setLeft, heap_setRight, heap_setParent,
      heap_setRoot, h2, h2', hpn, Ne.symm hpn, hpl, Ne.symm hpl]
  · have hrn : rr ≠ n := fun e => h3 (hR.trans (congrArg some e))
    have hrp : rr ≠ p := fun e => h7 p hP (hR.trans (congrArg some e))
    simp [rightRotate, h1, hR, hP, hside, heap_setLeft, heap_setRight, heap_setParent,
      heap_setRoot, h2, h2', hpn, Ne.symm hpn, hpl, Ne.symm hpl, hrn, Ne.symm hrn,
      hrp, Ne.symm hrp]

theorem rightRotate_heap_p_left (t : STree α) (n l p : Nat)
    (h1 : (t.heap n).left = some l) (h2 : l ≠ n)
    (h3 : (t.heap l).right ≠ some n)
    (h5 : (t.heap n).parent ≠ some n)
    (h6 : (t.heap n).parent ≠ some l)
    (h7 : ∀ q, (t.heap n).parent = some q → (t.heap l).right ≠ some q)
    (hP : (t.heap n).parent = some p)
    (hside : (t.heap p).right ≠ some n) :
    ((rightRotate t n).heap p).left = some l
    ∧ ((rightRotate t n).heap p).right = (t.heap p).right
    ∧ ((rightRotate t n).heap p).parent = (t.heap p).parent := by
  have h2' : n ≠ l := Ne.symm h2
  have hpn : p ≠ n := fun e => h5 (e ▸ hP)
  have hpl : p ≠ l := fun e => h6 (e ▸ hP)
  rcases hR : (t.heap l).right with _ | rr
  · simp [rightRotate, h1, hR, hP, hside, heap_setLeft, heap_setRight, heap_setParent,
      heap_setRoot, h2, h2', hpn, Ne.symm hpn, hpl, Ne.symm hpl]
  · have hrn : rr ≠ n := fun e => h3 (hR.trans (congrArg some e))
    have hrp : rr ≠ p := fun e => h7 p hP (hR.trans (congrArg some e))
    simp [rightRotate, h1, hR, hP, hside, heap_setLeft, heap_setRight, heap_setParent,
      heap_setRoot, h2, h2', hpn, Ne.symm hpn, hpl, Ne.symm hpl, hrn, Ne.symm hrn,
      hrp, Ne.symm hrp]

theorem rightRotate_frame (t : STree α) (n l j : Nat)
    (h1 : (t.heap n).left = some l) (h2 : l ≠ n)
    (h3 : (t.heap l).right ≠ some n)
    (h5 : (t.heap n).parent ≠ some n)
    (h6 : (t.heap n).parent ≠ some l)
    (h7 : ∀ q, (t.heap n).parent = some q → (t.heap l).right ≠ some q)
    (hj1 : j ≠ n) (hj2 : j ≠ l)
    (hj3 : (t.heap l).right ≠ some j)
    (hj4 : (t.heap n).parent ≠ some j) :
    sameLinks ((rightRotate t n).heap j) (t.heap j) := by
  have h2' : n ≠ l := Ne.symm h2
  rcases hR : (t.heap l).right with _ | rr <;>
    rcases hP : (t.heap n).parent with _ | p
  · simp [sameLinks, rightRotate, h1, hR, hP, heap_setLeft, heap_setRight, heap_setParent,
      heap_setRoot, h2, h2', hj1, hj2]
  · have hpn : p ≠ n := fun e => h5 (e ▸ hP)
    have hpl : p ≠ l := fun e => h6 (e ▸ hP)
    have hjp : j ≠ p := fun e => hj4 (e ▸ hP)
    by_cases hside : (t.heap p).right = some n <;>
      simp [sameLinks, rightRotate, h1, hR, hP, hside, heap_setLeft, heap_setRight,
        heap_setParent, heap_setRoot, h2, h2', hpn, Ne.symm hpn, hpl, Ne.symm hpl, hj1, hj2, hjp]
  · have hrn : rr ≠ n := fun e => h3 (hR.trans (congrArg some e))
    have hjr : j ≠ rr := fun e => hj3 (hR.trans (congrArg some e.symm))
    simp [sameLinks, rightRotate, h1, hR, hP, heap_setLeft, heap_setRight, heap_setParent,
      heap_setRoot, h2, h2', hrn, Ne.symm hrn, hj1, hj2, hjr]
  · have hpn : p ≠ n := fun e => h5 (e ▸ hP)
    have hpl : p ≠ l := fun e => h6 (e ▸ hP)
    have hjp : j ≠ p := fun e => hj4 (e ▸ hP)
    have hrn : rr ≠ n := fun e => h3 (hR.trans (congrArg some e))
    have hrp : rr ≠ p := fun e => h7 p hP (hR.trans (congrArg some e))
    have hjr : j ≠ rr := fun e => hj3 (hR.trans (congrArg some e.symm))
    by_cases hside : (t.heap p).right = some n <;>
      simp [sameLinks, rightRotate, h1, hR, hP, hside, heap_setLeft, heap_setRight,
        heap_setParent, heap_setRoot, h2, h2', hpn, Ne.symm hpn, hpl, Ne.symm hpl,
        hrn, Ne.symm hrn, hrp, Ne.symm hrp, hj1, hj2, hjp, hjr]

end ST

namespace ST

variable {α : Type}

theorem leftRotate_heap_n (t : STree α) (n r : Nat)
    (g1 : (t.heap n).right = some r) (g2 : r ≠ n)
    (g3 : (t.heap r).left ≠ some n)
    (g4 : (t.heap r).left ≠ some r)
    (g5 : (t.heap n).parent ≠ some n)
    (g6 : (t.heap n).parent ≠ some r)
    (g7 : ∀ p, (t.heap n).parent = some p → (t.heap r).left ≠ some p) :
    ((leftRotate t n).heap n).left = (t.heap n).left
    ∧ ((leftRotate t n).heap n).right = (t.heap r).left
    ∧ ((leftRotate t n).heap n).parent = some r := by
  have g2' : n ≠ r := Ne.symm g2
  rcases hL : (t.heap r).left with _ | ll <;>
    rcases hP : (t.heap n).parent with _ | p
  · simp [leftRotate, g1, hL, hP, heap_setLeft, heap_setRight, heap_setParent, heap_setRoot, g2, g2']
  · have hpn : p ≠ n := fun e => g5 (e ▸ hP)
    have hpr : p ≠ r := fun e => g6 (e ▸ hP)
    by_cases hside : (t.heap p).left = some n <;>
      simp [leftRotate, g1, hL, hP, hside, heap_setLeft, heap_setRight, heap_setParent,
        heap_setRoot, g2, g2', hpn, Ne.symm hpn, hpr, Ne.symm hpr]
  · have hln : ll ≠ n := fun e => g3 (hL.trans (congrArg some e))
    have hlr : ll ≠ r := fun e => g4 (hL.trans (congrArg some e))
    simp [leftRotate, g1, hL, hP, heap_setLeft, heap_setRight, heap_setParent, heap_setRoot,
      g2, g2', hln, Ne.symm hln, hlr, Ne.symm hlr]
  · have hpn : p ≠ n := fun e => g5 (e ▸ hP)
    have hpr : p ≠ r := fun e => g6 (e ▸ hP)
    have hln : ll ≠ n := fun e => g3 (hL.trans (congrArg some e))
    have hlr : ll ≠ r := fun e => g4 (hL.trans (congrArg some e))
    have hlp : ll ≠ p := fun e => g7 p hP (hL.trans (congrArg some e))
    by_cases hside : (t.heap p).left = some n <;>
      simp [leftRotate, g1, hL, hP, hside, heap_setLeft, heap_setRight, heap_setParent,
        heap_setRoot, g2, g2', hpn, Ne.symm hpn, hpr, Ne.symm hpr, hln, Ne.symm hln,
        hlr, Ne.symm hlr, hlp, Ne.symm hlp]

theorem leftRotate_heap_r (t : STree α) (n r : Nat)
    (g1 : (t.heap n).right = some r) (g2 : r ≠ n)
    (g3 : (t.heap r).left ≠ some n)
    (g4 : (t.heap r).left ≠ some r)
    (g5 : (t.heap n).parent ≠ some n)
    (g6 : (t.heap n).parent ≠ some r)
    (g7 : ∀ p, (t.heap n).parent = some p → (t.heap r).left ≠ some p) :
    ((leftRotate t n).heap r).left = some n
    ∧ ((leftRotate t n).heap r).right = (t.heap r).right
    ∧ ((leftRotate t n).heap r).parent = (t.heap n).parent := by
  have g2' : n ≠ r := Ne.symm g2
  rcases hL : (t.heap r).left with _ | ll <;>
    rcases hP : (t.heap n).parent with _ | p
  · simp [leftRotate, g1, hL, hP, heap_setLeft, heap_setRight, heap_setParent, heap_setRoot, g2, g2']
  · have hpn : p ≠ n := fun e => g5 (e ▸ hP)
    have hpr : p ≠ r := fun e => g6 (e ▸ hP)
    by_cases hside : (t.heap p).left = some n <;>
      simp [leftRotate, g1, hL, hP, hside, heap_setLeft, heap_setRight, heap_setParent,
        heap_setRoot, g2, g2', hpn, Ne.symm hpn, hpr, Ne.symm hpr]
  · have hln : ll ≠ n := fun e => g3 (hL.trans (congrArg some e))
    have hlr : ll ≠ r := fun e => g4 (hL.trans (congrArg some e))
    simp [leftRotate, g1, hL, hP, heap_setLeft, heap_setRight, heap_setParent, heap_setRoot,
      g2, g2', hln, Ne.symm hln, hlr, Ne.symm hlr]
  · have hpn : p ≠ n := fun e => g5 (e ▸ hP)
    have hpr : p ≠ r := fun e => g6 (e ▸ hP)
    have hln : ll ≠ n := fun e => g3 (hL.trans (congrArg some e))
    have hlr : ll ≠ r := fun e => g4 (hL.trans (congrArg some e))
    have hlp : ll ≠ p := fun e => g7 p hP (hL.trans (congrArg some e))
    by_cases hside : (t.heap p).left = some n <;>
      simp [leftRotate, g1, hL, hP, hside, heap_setLeft, heap_setRight, heap_setParent,
        heap_setRoot, g2, g2', hpn, Ne.symm hpn, hpr, Ne.symm hpr, hln, Ne.symm hln,
        hlr, Ne.symm hlr, hlp, Ne.symm hlp]

theorem leftRotate_root_none (t : STree α) (n r : Nat)
    (g1 : (t.heap n).right = some r) (g2 : r ≠ n)
    (g3 : (t.heap r).left ≠ some n)
    (hP : (t.heap n).parent = none) :
    (leftRotate t n).root = some r := by
  have g2' : n ≠ r := Ne.symm g2
  rcases hL : (t.heap r).left with _ | ll
  · simp [leftRotate, g1, hL, hP, heap_setLeft, heap_setRight, heap_setParent, heap_setRoot,
      root_setLeft, root_setRight, root_setParent, root_setRoot, g2, g2']
  · have hln : ll ≠ n := fun e => g3 (hL.trans (congrArg some e))
    simp [leftRotate, g1, hL, hP, heap_setLeft, heap_setRight, heap_setParent, heap_setRoot,
      root_setLeft, root_setRight, root_setParent, root_setRoot, g2, g2', hln, Ne.symm hln]

theorem leftRotate_root_some (t : STree α) (n r p : Nat)
    (g1 : (t.heap n).right = some r) (g2 : r ≠ n)
    (g3 : (t.heap r).left ≠ some n)
    (g5 : (t.heap n).parent ≠ some n)
    (g6 : (t.heap n).parent ≠ some r)
    (g7 : ∀ q, (t.heap n).parent = some q → (t.heap r).left ≠ some q)
    (hP : (t.heap n).parent = some p) :
    (leftRotate t n).root = t.root := by
  have g2' : n ≠ r := Ne.symm g2
  have hpn : p ≠ n := fun e => g5 (e ▸ hP)
  have hpr : p ≠ r := fun e => g6 (e ▸ hP)
  rcases hL : (t.heap r).left with _ | ll
  · by_cases hside : (t.heap p).left = some n <;>
      simp [leftRotate, g1, hL, hP, hside, heap_setLeft, heap_setRight, heap_setParent,
        heap_setRoot, root_setLeft, root_setRight, root_setParent, root_setRoot,
        g2, g2', hpn, Ne.symm hpn, hpr, Ne.symm hpr]
  · have hln : ll ≠ n := fun e => g3 (hL.trans (congrArg some e))
    have hlp : ll ≠ p := fun e => g7 p hP (hL.trans (congrArg some e))
    by_cases hside : (t.heap p).left = some n <;>
      simp [leftRotate, g1, hL, hP, hside, heap_setLeft, heap_setRight, heap_setParent,
        heap_setRoot, root_setLeft, root_setRight, root_setParent, root_setRoot,
        g2, g2', hpn, Ne.symm hpn, hpr, Ne.symm hpr, hln, Ne.symm hln, hlp, Ne.symm hlp]

theorem leftRotate_heap_p_left (t : STree α) (n r p : Nat)
    (g1 : (t.heap n).right = some r) (g2 : r ≠ n)
    (g3 : (t.heap r).left ≠ some n)
    (g5 : (t.heap n).parent ≠ some n)
    (g6 : (t.heap n).parent ≠ some r)
    (g7 : ∀ q, (t.heap n).parent = some q → (t.heap r).left ≠ some q)
    (hP : (t.heap n).parent = some p)
    (hside : (t.heap p).left = some n) :
    ((leftRotate t n).heap p).left = some r
    ∧ ((leftRotate t n).heap p).right = (t.heap p).right
    ∧ ((leftRotate t n).heap p).parent = (t.heap p).parent := by
  have g2' : n ≠ r := Ne.symm g2
  have hpn : p ≠ n := fun e => g5 (e ▸ hP)
  have hpr : p ≠ r := fun e => g6 (e ▸ hP)
  rcases hL : (t.heap r).left with _ | ll
  · simp [leftRotate, g1, hL, hP, hside, heap_setLeft, heap_setRight, heap_setParent,
      heap_setRoot, g2, g2', hpn, Ne.symm hpn, hpr, Ne.symm hpr]
  · have hln : ll ≠ n := fun e => g3 (hL.trans (congrArg some e))
    have hlp : ll ≠ p := fun e => g7 p hP (hL.trans (congrArg some e))
    simp [leftRotate, g1, hL, hP, hside, heap_setLeft, heap_setRight, heap_setParent,
      heap_setRoot, g2, g2', hpn, Ne.symm hpn, hpr, Ne.symm hpr, hln, Ne.symm hln,
      hlp, Ne.symm hlp]

theorem leftRotate_heap_p_right (t : STree α) (n r p : Nat)
    (g1 : (t.heap n).right = some r) (g2 : r ≠ n)
    (g3 : (t.heap r).left ≠ some n)
    (g5 : (t.heap n).parent ≠ some n)
    (g6 : (t.heap n).parent ≠ some r)
    (g7 : ∀ q, (t.heap n).parent = some q → (t.heap r).left ≠ some q)
    (hP : (t.heap n).parent = some p)
    (hside : (t.heap p).left ≠ some n) :
    ((leftRotate t n).heap p).left = (t.heap p).left
    ∧ ((leftRotate t n).heap p).right = some r
    ∧ ((leftRotate t n).heap p).parent = (t.heap p).parent := by
  have g2' : n ≠ r := Ne.symm g2
  have hpn : p ≠ n := fun e => g5 (e ▸ hP)
  have hpr : p ≠ r := fun e => g6 (e ▸ hP)
  rcases hL : (t.heap r).left with _ | ll
  · simp [leftRotate, g1, hL, hP, hside, heap_setLeft, heap_setRight, heap_setParent,
      heap_setRoot, g2, g2', hpn, Ne.symm hpn, hpr, Ne.symm hpr]
  · have hln : ll ≠ n := fun e => g3 (hL.trans (congrArg some e))
    have hlp : ll ≠ p := fun e => g7 p hP (hL.trans (congrArg some e))
    simp [leftRotate, g1, hL, hP, hside, heap_setLeft, heap_setRight, heap_setParent,
      heap_setRoot, g2, g2', hpn, Ne.symm hpn, hpr, Ne.symm hpr, hln, Ne.symm hln,
      hlp, Ne.symm hlp]

theorem leftRotate_frame (t : STree α) (n r j : Nat)
    (g1 : (t.heap n).right = some r) (g2 : r ≠ n)
    (g3 : (t.heap r).left ≠ some n)
    (g5 : (t.heap n).parent ≠ some n)
    (g6 : (t.heap n).parent ≠ some r)
    (g7 : ∀ q, (t.heap n).parent = some q → (t.heap r).left ≠ some q)
    (hj1 : j ≠ n) (hj2 : j ≠ r)
    (hj3 : (t.heap r).left ≠ some j)
    (hj4 : (t.heap n).parent ≠ some j) :
    sameLinks ((leftRotate t n).heap j) (t.heap j) := by
  have g2' : n ≠ r := Ne.symm g2
  rcases hL : (t.heap r).left with _ | ll <;>
    rcases hP : (t.heap n).parent with _ | p
  · simp [sameLinks, leftRotate, g1, hL, hP, heap_setLeft, heap_setRight, heap_setParent,
      heap_setRoot, g2, g2', hj1, hj2]
  · have hpn : p ≠ n := fun e => g5 (e ▸ hP)
    have hpr : p ≠ r := fun e => g6 (e ▸ hP)
    have hjp : j ≠ p := fun e => hj4 (e ▸ hP)
    by_cases hside : (t.heap p).left = some n <;>
      simp [sameLinks, leftRotate, g1, hL, hP, hside, heap_setLeft, heap_setRight,
        heap_setParent, heap_setRoot, g2, g2', hpn, Ne.symm hpn, hpr, Ne.symm hpr, hj1, hj2, hjp]
  · have hln : ll ≠ n := fun e => g3 (hL.trans (congrArg some e))
    have hjl : j ≠ ll := fun e => hj3 (hL.trans (congrArg some e.symm))
    simp [sameLinks, leftRotate, g1, hL, hP, heap_setLeft, heap_setRight, heap_setParent,
      heap_setRoot, g2, g2', hln, Ne.symm hln, hj1, hj2, hjl]
  · have hpn : p ≠ n := fun e => g5 (e ▸ hP)
    have hpr : p ≠ r := fun e => g6 (e ▸ hP)
    have hjp : j ≠ p := fun e => hj4 (e ▸ hP)
    have hln : ll ≠ n := fun e => g3 (hL.trans (congrArg some e))
    have hlp : ll ≠ p := fun e => g7 p hP (hL.trans (congrArg some e))
    have hjl : j ≠ ll := fun e => hj3 (hL.trans (congrArg some e.symm))
    by_cases hside : (t.heap p).left = some n <;>
      simp [sameLinks, leftRotate, g1, hL, hP, hside, heap_setLeft, heap_setRight,
        heap_setParent, heap_setRoot, g2, g2', hpn, Ne.symm hpn, hpr, Ne.symm hpr,
        hln, Ne.symm hln, hlp, Ne.symm hlp, hj1, hj2, hjp, hjl]

end ST

namespace ST

variable {α : Type}

/-- Parent and child links between a chain child `c` and its parent `a`
agree, with `c` hanging on exactly one side of `a`. -/
def linkPairOK (t : STree α) (c a : Nat) : Bool :=
  decide ((t.heap c).parent = some a) &&
  ((decide ((t.heap a).left = some c) && !decide ((t.heap a).right = some c)) ||
   (decide ((t.heap a).right = some c) && !decide ((t.heap a).left = some c)))

/-- The links of node `a` avoid every chain member except its chain child. -/
def avoidOK (t : STree α) (a keep : Nat) (full : List Nat) : Bool :=
  full.all fun b =>
    decide (b = keep) ||
    (!decide ((t.heap a).left = some b) && !decide ((t.heap a).right = some b))

/-- The links of the splayed node avoid every chain member. -/
def nodeAvoid (t : STree α) (node : Nat) (full : List Nat) : Bool :=
  full.all fun b =>
    !decide ((t.heap node).left = some b) && !decide ((t.heap node).right = some b)

/-- Consistency of the whole ancestor chain above `c`. -/
def arcs (t : STree α) (full : List Nat) : Nat → List Nat → Bool
  | _, [] => true
  | c, a :: rest => linkPairOK t c a && avoidOK t a c full && arcs t full a rest

/-- Invariant of the splay loop: `rest` is the ancestor chain of `node`
from its parent up to the tree root `root0`, consistent and free of stray
links back into the chain. -/
def chainOK (t : STree α) (node : Nat) (rest : List Nat) (root0 : Nat) : Bool :=
  decide ((node :: rest).Nodup) &&
  nodeAvoid t node (node :: rest) &&
  arcs t (node :: rest) node rest &&
  (match rest with
   | [] => decide (t.root = some node)
   | _ :: _ =>
     decide ((t.heap (rest.getLastD node)).parent = none) &&
     decide (rest.getLastD node = root0) &&
     decide (t.root = some root0))

theorem linkPairOK_iff (t : STree α) (c a : Nat) :
    linkPairOK t c a = true ↔
    (t.heap c).parent = some a ∧
    (((t.heap a).left = some c ∧ (t.heap a).right ≠ some c) ∨
     ((t.heap a).right = some c ∧ (t.heap a).left ≠ some c)) := by
  simp [linkPairOK]

theorem avoidOK_iff (t : STree α) (a keep : Nat) (full : List Nat) :
    avoidOK t a keep full = true ↔
    ∀ b ∈ full, b = keep ∨ ((t.heap a).left ≠ some b ∧ (t.heap a).right ≠ some b) := by
  simp [avoidOK]

theorem nodeAvoid_iff (t : STree α) (node : Nat) (full : List Nat) :
    nodeAvoid t node full = true ↔
    ∀ b ∈ full, (t.heap node).left ≠ some b ∧ (t.heap node).right ≠ some b := by
  simp [nodeAvoid]

theorem arcs_nil (t : STree α) (full : List Nat) (c : Nat) : arcs t full c [] = true := rfl

theorem arcs_cons_iff (t : STree α) (full : List Nat) (c a : Nat) (rest : List Nat) :
    arcs t full c (a :: rest) = true ↔
    linkPairOK t c a = true ∧ avoidOK t a c full = true ∧ arcs t full a rest = true := by
  simp [arcs, Bool.and_eq_true, and_assoc]

theorem chainOK_iff (t : STree α) (node : Nat) (rest : List Nat) (root0 : Nat) :
    chainOK t node rest root0 = true ↔
    (node :: rest).Nodup ∧ nodeAvoid t node (node :: rest) = true
    ∧ arcs t (node :: rest) node rest = true
    ∧ (match rest with
       | [] => t.root = some node
       | _ :: _ =>
         (t.heap (rest.getLastD node)).parent = none
         ∧ rest.getLastD node = root0 ∧ t.root = some root0) := by
  cases rest with
  | nil => simp [chainOK, Bool.and_eq_true, and_assoc]
  | cons a rest => simp [chainOK, Bool.and_eq_true, and_assoc]

theorem getLastD_mem : ∀ (l : List Nat) (d : Nat), l ≠ [] → l.getLastD d ∈ l
  | [], _, h => absurd rfl h
  | [a], _, _ => by simp
  | a :: b :: l, d, _ => by
    rw [List.getLastD_cons]
    exact List.mem_cons_of_mem a (getLastD_mem (b :: l) a (by simp))

theorem sameLinks_trans {x y z : SNode α} (h1 : sameLinks x y) (h2 : sameLinks y z) :
    sameLinks x z :=
  ⟨h1.1.trans h2.1, h1.2.1.trans h2.2.1, h1.2.2.trans h2.2.2⟩

theorem arcs_transfer (t t' : STree α) (full full' : List Nat)
    (hsub : ∀ b ∈ full', b ∈ full) :
    ∀ (c : Nat) (rest : List Nat),
      (t'.heap c).parent = (t.heap c).parent →
      (∀ x ∈ rest, sameLinks (t'.heap x) (t.heap x)) →
      arcs t full c rest = true → arcs t' full' c rest = true
  | _, [], _, _, _ => rfl
  | c, a :: rest, hc, hcells, h => by
    rw [arcs_cons_iff] at h
    obtain ⟨hlp, hav, hrest⟩ := h
    rw [linkPairOK_iff] at hlp
    rw [avoidOK_iff] at hav
    have ha : sameLinks (t'.heap a) (t.heap a) := hcells a (List.mem_cons_self a rest)
    rw [arcs_cons_iff]
    refine ⟨?_, ?_, ?_⟩
    · rw [linkPairOK_iff]
      exact ⟨hc.trans hlp.1, by rw [ha.1, ha.2.1]; exact hlp.2⟩
    · rw [avoidOK_iff]
      intro b hb
      rw [ha.1, ha.2.1]
      exact hav b (hsub b hb)
    · exact arcs_transfer t t' full full' hsub a rest ha.2.2
        (fun x hx => hcells x (List.mem_cons_of_mem a hx)) hrest

end ST

namespace ST

variable {α : Type}

theorem chainOK_zig (t : STree α) (node r0 root0 : Nat)
    (h : chainOK t node [r0] root0 = true) :
    chainOK (splayStep t node root0) node [] root0 = true := by
  rw [chainOK_iff] at h
  obtain ⟨hnd, hselfB, harcsB, hterm⟩ := h
  obtain ⟨hlast, heq0, hroot⟩ := hterm
  simp only [List.getLastD_cons, List.getLastD_nil] at hlast heq0
  subst heq0
  have hself := (nodeAvoid_iff t node [node, r0]).1 hselfB
  rw [arcs_cons_iff] at harcsB
  obtain ⟨hlpB, _, _⟩ := harcsB
  rw [linkPairOK_iff] at hlpB
  obtain ⟨hpar, hside⟩ := hlpB
  have hnr : node ≠ r0 := by
    intro e; exact (List.nodup_cons.1 hnd).1 (by simp [e])
  have hselfn := hself node (by simp)
  have hselfr := hself r0 (by simp)
  have h5 : (t.heap r0).parent ≠ some r0 := by rw [hlast]; simp
  have h6 : (t.heap r0).parent ≠ some node := by rw [hlast]; simp
  have h7l : ∀ p, (t.heap r0).parent = some p → (t.heap node).right ≠ some p := by
    intro p hp; rw [hlast] at hp; exact Option.noConfusion hp
  have h7r : ∀ p, (t.heap r0).parent = some p → (t.heap node).left ≠ some p := by
    intro p hp; rw [hlast] at hp; exact Option.noConfusion hp
  have hstep : (splayStep t node r0) =
      if (t.heap r0).left = some node then rightRotate t r0 else leftRotate t r0 := by
    rw [splayStep, if_pos hpar]
  rw [chainOK_iff]
  rcases hside with ⟨hsl, hsr⟩ | ⟨hsr, hsl⟩
  · -- zig with node on the left: rightRotate the root
    rw [hstep, if_pos hsl]
    have hl := rightRotate_heap_l t r0 node hsl hnr hselfr.2 hselfn.2 h5 h6 h7l
    refine ⟨by simp, ?_, rfl, ?_⟩
    · rw [nodeAvoid_iff]
      intro b hb
      simp only [List.mem_singleton] at hb
      subst hb
      rw [hl.1, hl.2.1]
      exact ⟨hselfn.1, fun e => hnr (Option.some_injective _ e).symm⟩
    · exact rightRotate_root_none t r0 node hsl hnr hselfr.2 hlast
  · -- zig with node on the right: leftRotate the root
    rw [hstep, if_neg hsl]
    have hr := leftRotate_heap_r t r0 node hsr hnr hselfr.1 hselfn.1 h5 h6 h7r
    refine ⟨by simp, ?_, rfl, ?_⟩
    · rw [nodeAvoid_iff]
      intro b hb
      simp only [List.mem_singleton] at hb
      subst hb
      rw [hr.1, hr.2.1]
      exact ⟨fun e => hnr (Option.some_injective _ e).symm, hselfn.2⟩
    · exact leftRotate_root_none t r0 node hsr hnr hselfr.1 hlast

end ST

namespace ST

variable {α : Type}

theorem chainOK_step_nil (t : STree α) (node p g root0 : Nat)
    (h : chainOK t node [p, g] root0 = true) :
    chainOK (splayStep t node root0) node [] root0 = true := by
  rw [chainOK_iff] at h
  obtain ⟨hnd, hselfB, harcsB, hterm⟩ := h
  obtain ⟨hlastB, heq0, hroot⟩ := hterm
  have hlast : (t.heap g).parent = none := by simpa [List.getLastD_cons] using hlastB
  have heq0' : g = root0 := by simpa [List.getLastD_cons] using heq0
  subst heq0'
  have hself := (nodeAvoid_iff t node [node, p, g]).1 hselfB
  rw [arcs_cons_iff] at harcsB
  obtain ⟨hlpB, hapB, harcs2⟩ := harcsB
  rw [arcs_cons_iff] at harcs2
  obtain ⟨hlgB, hagB, _⟩ := harcs2
  rw [linkPairOK_iff] at hlpB hlgB
  obtain ⟨hparn, hsiden⟩ := hlpB
  obtain ⟨hparp, hsidep⟩ := hlgB
  have hap := (avoidOK_iff t p node [node, p, g]).1 hapB
  have hnd1 := List.nodup_cons.1 hnd
  have hnd2 := List.nodup_cons.1 hnd1.2
  have hnp : node ≠ p := fun e => hnd1.1 (by simp [e])
  have hng : node ≠ g := fun e => hnd1.1 (by simp [e])
  have hpg : p ≠ g := fun e => hnd2.1 (by simp [e])
  have hselfn := hself node (by simp)
  have hselfp := hself p (by simp)
  have hselfg := hself g (by simp)
  have happ := (hap p (by simp)).resolve_left (Ne.symm hnp)
  have hapg := (hap g (by simp)).resolve_left (Ne.symm hng)
  have hg5 : (t.heap g).parent ≠ some g := by rw [hlast]; simp
  have hg6 : (t.heap g).parent ≠ some p := by rw [hlast]; simp
  have hg6n : (t.heap g).parent ≠ some node := by rw [hlast]; simp
  have hg7 : ∀ q, (t.heap g).parent = some q → (t.heap p).right ≠ some q := by
    intro q hq; rw [hlast] at hq; exact Option.noConfusion hq
  have hg7l : ∀ q, (t.heap g).parent = some q → (t.heap p).left ≠ some q := by
    intro q hq; rw [hlast] at hq; exact Option.noConfusion hq
  have hp5 : (t.heap p).parent ≠ some p := by
    rw [hparp]; exact fun e => hpg (Option.some_injective _ e).symm
  have hp6 : (t.heap p).parent ≠ some node := by
    rw [hparp]; exact fun e => hng (Option.some_injective _ e).symm
  have hstep : splayStep t node g =
      (if (t.heap g).left = some p then
        if (t.heap p).left = some node then rightRotate (rightRotate t g) p
        else rightRotate (leftRotate t p) g
      else if (t.heap g).right = some p then
        if (t.heap p).right = some node then leftRotate (leftRotate t g) p
        else leftRotate (rightRotate t p) g
      else t) := by
    simp only [splayStep, hparn, hparp, Option.some.injEq]
    rw [if_neg hpg]
  rw [hstep]
  rcases hsidep with ⟨hgl, hgr⟩ | ⟨hgr, hgl⟩
  · rw [if_pos hgl]
    rcases hsiden with ⟨hpl, hpr⟩ | ⟨hpr, hpl⟩
    · -- zig-zig left-left: rightRotate g then rightRotate p
      rw [if_pos hpl]
      have hAp := rightRotate_heap_l t g p hgl hpg hapg.2 happ.2 hg5 hg6 hg7
      have hAnode := rightRotate_frame t g p node hgl hpg hapg.2 hg5 hg6 hg7 hng hnp hpr hg6n
      have b1 : ((rightRotate t g).heap p).left = some node := by rw [hAp.1]; exact hpl
      have b5 : ((rightRotate t g).heap p).parent = none := by rw [hAp.2.2]; exact hlast
      have c3 : ((rightRotate t g).heap node).right ≠ some p := by
        rw [hAnode.2.1]; exact hselfp.2
      have c4 : ((rightRotate t g).heap node).right ≠ some node := by
        rw [hAnode.2.1]; exact hselfn.2
      have hBnode := rightRotate_heap_l (rightRotate t g) p node b1 hnp c3 c4
        (by rw [b5]; simp) (by rw [b5]; simp)
        (fun q hq => by rw [b5] at hq; exact Option.noConfusion hq)
      rw [chainOK_iff]
      refine ⟨by simp, ?_, rfl, ?_⟩
      · rw [nodeAvoid_iff]
        intro b hb
        simp only [List.mem_singleton] at hb
        subst hb
        rw [hBnode.1, hBnode.2.1, hAnode.1]
        exact ⟨hselfn.1, fun e => hnp (Option.some_injective _ e).symm⟩
      · exact rightRotate_root_none (rightRotate t g) p node b1 hnp c3 b5
    · -- zig-zag left-right: leftRotate p then rightRotate g
      rw [if_neg hpl]
      have hp7 : ∀ q, (t.heap p).parent = some q → (t.heap node).left ≠ some q := by
        intro q hq
        rw [hparp] at hq
        have hqg : q = g := Option.some_injective _ hq.symm
        subst hqg
        exact hselfg.1
      have hAnodeH := leftRotate_heap_r t p node hpr hnp hselfp.1 hselfn.1 hp5 hp6 hp7
      have hAg := leftRotate_heap_p_left t p node g hpr hnp hselfp.1 hp5 hp6 hp7 hparp hgl
      have b1 : ((leftRotate t p).heap g).left = some node := hAg.1
      have b3 : ((leftRotate t p).heap node).right ≠ some g := by
        rw [hAnodeH.2.1]; exact hselfg.2
      have b4 : ((leftRotate t p).heap node).right ≠ some node := by
        rw [hAnodeH.2.1]; exact hselfn.2
      have b5 : ((leftRotate t p).heap g).parent = none := by rw [hAg.2.2]; exact hlast
      have hBnode := rightRotate_heap_l (leftRotate t p) g node b1 hng b3 b4
        (by rw [b5]; simp) (by rw [b5]; simp)
        (fun q hq => by rw [b5] at hq; exact Option.noConfusion hq)
      rw [chainOK_iff]
      refine ⟨by simp, ?_, rfl, ?_⟩
      · rw [nodeAvoid_iff]
        intro b hb
        simp only [List.mem_singleton] at hb
        subst hb
        rw [hBnode.1, hBnode.2.1, hAnodeH.1]
        exact ⟨fun e => hnp (Option.some_injective _ e).symm,
               fun e => hng (Option.some_injective _ e).symm⟩
      · exact rightRotate_root_none (leftRotate t p) g node b1 hng b3 b5
  · rw [if_neg hgl, if_pos hgr]
    rcases hsiden with ⟨hpl, hpr⟩ | ⟨hpr, hpl⟩
    · -- zig-zag right-left: rightRotate p then leftRotate g
      rw [if_neg hpr]
      have hp7 : ∀ q, (t.heap p).parent = some q → (t.heap node).right ≠ some q := by
        intro q hq
        rw [hparp] at hq
        have hqg : q = g := Option.some_injective _ hq.symm
        subst hqg
        exact hselfg.2
      have hAnodeH := rightRotate_heap_l t p node hpl hnp hselfp.2 hselfn.2 hp5 hp6 hp7
      have hAg := rightRotate_heap_p_right t p node g hpl hnp hselfp.2 hp5 hp6 hp7 hparp hgr
      have b1 : ((rightRotate t p).heap g).right = some node := hAg.2.1
      have b3 : ((rightRotate t p).heap node).left ≠ some g := by
        rw [hAnodeH.1]; exact hselfg.1
      have b4 : ((rightRotate t p).heap node).left ≠ some node := by
        rw [hAnodeH.1]; exact hselfn.1
      have b5 : ((rightRotate t p).heap g).parent = none := by rw [hAg.2.2]; exact hlast
      have hBnode := leftRotate_heap_r (rightRotate t p) g node b1 hng b3 b4
        (by rw [b5]; simp) (by rw [b5]; simp)
        (fun q hq => by rw [b5] at hq; exact Option.noConfusion hq)
      rw [chainOK_iff]
      refine ⟨by simp, ?_, rfl, ?_⟩
      · rw [nodeAvoid_iff]
        intro b hb
        simp only [List.mem_singleton] at hb
        subst hb
        rw [hBnode.1, hBnode.2.1, hAnodeH.2.1]
        exact ⟨fun e => hng (Option.some_injective _ e).symm,
               fun e => hnp (Option.some_injective _ e).symm⟩
      · exact leftRotate_root_none (rightRotate t p) g node b1 hng b3 b5
    · -- zig-zig right-right: leftRotate g then leftRotate p
      rw [if_pos hpr]
      have hAp := leftRotate_heap_r t g p hgr hpg hapg.1 happ.1 hg5 hg6 hg7l
      have hAnode := leftRotate_frame t g p node hgr hpg hapg.1 hg5 hg6 hg7l hng hnp hpl hg6n
      have b1 : ((leftRotate t g).heap p).right = some node := by rw [hAp.2.1]; exact hpr
      have b5 : ((leftRotate t g).heap p).parent = none := by rw [hAp.2.2]; exact hlast
      have c3 : ((leftRotate t g).heap node).left ≠ some p := by
        rw [hAnode.1]; exact hselfp.1
      have c4 : ((leftRotate t g).heap node).left ≠ some node := by
        rw [hAnode.1]; exact hselfn.1
      have hBnode := leftRotate_heap_r (leftRotate t g) p node b1 hnp c3 c4
        (by rw [b5]; simp) (by rw [b5]; simp)
        (fun q hq => by rw [b5] at hq; exact Option.noConfusion hq)
      rw [chainOK_iff]
      refine ⟨by simp, ?_, rfl, ?_⟩
      · rw [nodeAvoid_iff]
        intro b hb
        simp only [List.mem_singleton] at hb
        subst hb
        rw [hBnode.1, hBnode.2.1, hAnode.2.1]
        exact ⟨fun e => hnp (Option.some_injective _ e).symm, hselfn.2⟩
      · exact leftRotate_root_none (leftRotate t g) p node b1 hnp c3 b5

end ST

namespace ST

variable {α : Type}

theorem chainOK_step_cons (t : STree α) (node p g a : Nat) (rest'' : List Nat) (root0 : Nat)
    (h : chainOK t node (p :: g :: a :: rest'') root0 = true) :
    chainOK (splayStep t node root0) node (a :: rest'') root0 = true := by
  rw [chainOK_iff] at h
  obtain ⟨hnd, hselfB, harcsB, hterm⟩ := h
  obtain ⟨hlastB, heq0, hroot⟩ := hterm
  simp only [List.getLastD_cons] at hlastB heq0
  have hlast0 : (t.heap root0).parent = none := heq0 ▸ hlastB
  have hself := (nodeAvoid_iff t node (node :: p :: g :: a :: rest'')).1 hselfB
  rw [arcs_cons_iff] at harcsB
  obtain ⟨hlpB, hapB, harcs2⟩ := harcsB
  rw [arcs_cons_iff] at harcs2
  obtain ⟨hlgB, hagB, harcs3⟩ := harcs2
  rw [arcs_cons_iff] at harcs3
  obtain ⟨hlaB, haaB, harcs4⟩ := harcs3
  rw [linkPairOK_iff] at hlpB hlgB hlaB
  obtain ⟨hparn, hsiden⟩ := hlpB
  obtain ⟨hparp, hsidep⟩ := hlgB
  obtain ⟨hparg, hsidega⟩ := hlaB
  have hap := (avoidOK_iff t p node (node :: p :: g :: a :: rest'')).1 hapB
  have hag := (avoidOK_iff t g p (node :: p :: g :: a :: rest'')).1 hagB
  have haa := (avoidOK_iff t a g (node :: p :: g :: a :: rest'')).1 haaB
  have hnd1 := List.nodup_cons.1 hnd
  have hnd2 := List.nodup_cons.1 hnd1.2
  have hnd3 := List.nodup_cons.1 hnd2.2
  have hnd4 := List.nodup_cons.1 hnd3.2
  have hnp : node ≠ p := fun e => hnd1.1 (by simp [e])
  have hng : node ≠ g := fun e => hnd1.1 (by simp [e])
  have hna : node ≠ a := fun e => hnd1.1 (by simp [e])
  have hnin : node ∉ rest'' := fun hx => hnd1.1 (by simp [hx])
  have hpg : p ≠ g := fun e => hnd2.1 (by simp [e])
  have hpa : p ≠ a := fun e => hnd2.1 (by simp [e])
  have hpin : p ∉ rest'' := fun hx => hnd2.1 (by simp [hx])
  have hga : g ≠ a := fun e => hnd3.1 (by simp [e])
  have hgin : g ∉ rest'' := fun hx => hnd3.1 (by simp [hx])
  have hain : a ∉ rest'' := hnd4.1
  have hselfn := hself node (by simp)
  have hselfp := hself p (by simp)
  have hselfg := hself g (by simp)
  have hselfa := hself a (by simp)
  have hselfx : ∀ x ∈ rest'', (t.heap node).left ≠ some x ∧ (t.heap node).right ≠ some x :=
    fun x hx => hself x (by simp [hx])
  have happ := (hap p (by simp)).resolve_left (Ne.symm hnp)
  have hapg := (hap g (by simp)).resolve_left (Ne.symm hng)
  have hapa := (hap a (by simp)).resolve_left (Ne.symm hna)
  have hapx : ∀ x ∈ rest'', (t.heap p).left ≠ some x ∧ (t.heap p).right ≠ some x :=
    fun x hx => (hap x (by simp [hx])).resolve_left (fun e => hnin (e ▸ hx))
  have hagn := (hag node (by simp)).resolve_left hnp
  have haga := (hag a (by simp)).resolve_left (Ne.symm hpa)
  have hagx : ∀ x ∈ rest'', (t.heap g).left ≠ some x ∧ (t.heap g).right ≠ some x :=
    fun x hx => (hag x (by simp [hx])).resolve_left (fun e => hpin (e ▸ hx))
  have haan := (haa node (by simp)).resolve_left hng
  have haap := (haa p (by simp)).resolve_left hpg
  have haaa := (haa a (by simp)).resolve_left (Ne.symm hga)
  have haax : ∀ x ∈ rest'', (t.heap a).left ≠ some x ∧ (t.heap a).right ≠ some x :=
    fun x hx => (haa x (by simp [hx])).resolve_left (fun e => hgin (e ▸ hx))
  have hroot0mem : root0 = a ∨ root0 ∈ rest'' := by
    rcases e : rest'' with _ | ⟨y, l⟩
    · left; rw [e] at heq0; simpa using heq0.symm
    · right; rw [← heq0, e]; exact getLastD_mem (y :: l) a (by simp)
  have hproot0 : p ≠ root0 := by
    rcases hroot0mem with e | e
    · exact fun e2 => hpa (e2.trans e)
    · exact fun e2 => hpin (e2 ▸ e)
  have hg5 : (t.heap g).parent ≠ some g := by
    rw [hparg]; exact fun e => hga (Option.some_injective _ e).symm
  have hg6 : (t.heap g).parent ≠ some p := by
    rw [hparg]; exact fun e => hpa (Option.some_injective _ e).symm
  have hg6n : (t.heap g).parent ≠ some node := by
    rw [hparg]; exact fun e => hna (Option.some_injective _ e).symm
  have hg7 : ∀ q, (t.heap g).parent = some q → (t.heap p).right ≠ some q := by
    intro q hq
    rw [hparg] at hq
    have : q = a := Option.some_injective _ hq.symm
    subst this
    exact hapa.2
  have hg7l : ∀ q, (t.heap g).parent = some q → (t.heap p).left ≠ some q := by
    intro q hq
    rw [hparg] at hq
    have : q = a := Option.some_injective _ hq.symm
    subst this
    exact hapa.1
  have hp5 : (t.heap p).parent ≠ some p := by
    rw [hparp]; exact fun e => hpg (Option.some_injective _ e).symm
  have hp6 : (t.heap p).parent ≠ some node := by
    rw [hparp]; exact fun e => hng (Option.some_injective _ e).symm
  have hp7r : ∀ q, (t.heap p).parent = some q → (t.heap node).right ≠ some q := by
    intro q hq
    rw [hparp] at hq
    have : q = g := Option.some_injective _ hq.symm
    subst this
    exact hselfg.2
  have hp7l : ∀ q, (t.heap p).parent = some q → (t.heap node).left ≠ some q := by
    intro q hq
    rw [hparp] at hq
    have : q = g := Option.some_injective _ hq.symm
    subst this
    exact hselfg.1
  have hmem : ∀ b ∈ node :: a :: rest'', b ∈ node :: p :: g :: a :: rest'' := by
    intro b hb
    rcases List.mem_cons.1 hb with e | hb'
    · simp [e]
    · rcases List.mem_cons.1 hb' with e | hb''
      · simp [e]
      · simp [hb'']
  have hsub : (node :: a :: rest'').Sublist (node :: p :: g :: a :: rest'') := by
    refine List.Sublist.cons₂ node ?_
    exact (List.sublist_cons_self g (a :: rest'')).trans (List.sublist_cons_self p (g :: a :: rest''))
  have hstep : splayStep t node root0 =
      (if (t.heap g).left = some p then
        if (t.heap p).left = some node then rightRotate (rightRotate t g) p
        else rightRotate (leftRotate t p) g
      else if (t.heap g).right = some p then
        if (t.heap p).right = some node then leftRotate (leftRotate t g) p
        else leftRotate (rightRotate t p) g
      else t) := by
    simp only [splayStep, hparn, hparp, Option.some.injEq]
    rw [if_neg hproot0]
  rw [hstep]
  have hgetL : (a :: rest'').getLastD node = root0 := by
    rw [List.getLastD_cons]; exact heq0
  rcases hsidep with ⟨hgl, hgr⟩ | ⟨hgr, hgl⟩
  · rw [if_pos hgl]
    rcases hsiden with ⟨hpl, hpr⟩ | ⟨hpr, hpl⟩
    · -- zig-zig left-left: rightRotate g then rightRotate p
      rw [if_pos hpl]
      have hAp := rightRotate_heap_l t g p hgl hpg hapg.2 happ.2 hg5 hg6 hg7
      have hAnode := rightRotate_frame t g p node hgl hpg hapg.2 hg5 hg6 hg7 hng hnp hpr hg6n
      have hAx : ∀ x ∈ rest'', sameLinks ((rightRotate t g).heap x) (t.heap x) := by
        intro x hx
        exact rightRotate_frame t g p x hgl hpg hapg.2 hg5 hg6 hg7
          (fun e => hgin (e ▸ hx)) (fun e => hpin (e ▸ hx))
          (fun e => (hapx x hx).2 e)
          (by rw [hparg]; exact fun e => hain ((Option.some_injective _ e) ▸ hx))
      have b1 : ((rightRotate t g).heap p).left = some node := by rw [hAp.1]; exact hpl
      have bP : ((rightRotate t g).heap p).parent = some a := by rw [hAp.2.2]; exact hparg
      have b5 : ((rightRotate t g).heap p).parent ≠ some p := by
        rw [bP]; exact fun e => hpa (Option.some_injective _ e).symm
      have b6 : ((rightRotate t g).heap p).parent ≠ some node := by
        rw [bP]; exact fun e => hna (Option.some_injective _ e).symm
      have c3 : ((rightRotate t g).heap node).right ≠ some p := by
        rw [hAnode.2.1]; exact hselfp.2
      have c4 : ((rightRotate t g).heap node).right ≠ some node := by
        rw [hAnode.2.1]; exact hselfn.2
      have b7 : ∀ q, ((rightRotate t g).heap p).parent = some q →
          ((rightRotate t g).heap node).right ≠ some q := by
        intro q hq
        rw [bP] at hq
        have : q = a := Option.some_injective _ hq.symm
        subst this
        rw [hAnode.2.1]; exact hselfa.2
      have hBnode := rightRotate_heap_l (rightRotate t g) p node b1 hnp c3 c4 b5 b6 b7
      have hBx : ∀ x ∈ rest'', sameLinks ((rightRotate (rightRotate t g) p).heap x)
          ((rightRotate t g).heap x) := by
        intro x hx
        exact rightRotate_frame (rightRotate t g) p node x b1 hnp c3 b5 b6 b7
          (fun e => hpin (e ▸ hx)) (fun e => hnin (e ▸ hx))
          (by rw [hAnode.2.1]; exact fun e => (hselfx x hx).2 e)
          (by rw [bP]; exact fun e => hain ((Option.some_injective _ e) ▸ hx))
      have hBBx : ∀ x ∈ rest'', sameLinks ((rightRotate (rightRotate t g) p).heap x) (t.heap x) :=
        fun x hx => sameLinks_trans (hBx x hx) (hAx x hx)
      -- the ancestor cell a: updated by both rotations on its g-side
      have hBa : (((rightRotate (rightRotate t g) p).heap a).parent = (t.heap a).parent)
          ∧ ((((rightRotate (rightRotate t g) p).heap a).left = some node
              ∧ ((rightRotate (rightRotate t g) p).heap a).right = (t.heap a).right
              ∧ (t.heap a).right ≠ some node)
            ∨ (((rightRotate (rightRotate t g) p).heap a).right = some node
              ∧ ((rightRotate (rightRotate t g) p).heap a).left = (t.heap a).left
              ∧ (t.heap a).left ≠ some node)) := by
        rcases hsidega with ⟨hal, har⟩ | ⟨har, hal⟩
        · -- g was the left child of a
          have hAa := rightRotate_heap_p_left t g p a hgl hpg hapg.2 hg5 hg6 hg7 hparg
            (by rw [← hal] at har ⊢; exact har)
          have hBa2 := rightRotate_heap_p_left (rightRotate t g) p node a b1 hnp c3 b5 b6 b7 bP
            (by rw [hAa.2.1]; exact fun e => haap.2 e)
          refine ⟨hBa2.2.2.trans hAa.2.2, Or.inl ⟨hBa2.1, hBa2.2.1.trans hAa.2.1, ?_⟩⟩
          exact fun e => haan.2 e
        · -- g was the right child of a
          have hAa := rightRotate_heap_p_right t g p a hgl hpg hapg.2 hg5 hg6 hg7 hparg har
          have hBa2 := rightRotate_heap_p_right (rightRotate t g) p node a b1 hnp c3 b5 b6 b7 bP
            (by rw [hAa.2.1])
          refine ⟨hBa2.2.2.trans hAa.2.2, Or.inr ⟨hBa2.2.1, hBa2.1.trans hAa.1, ?_⟩⟩
          exact fun e => haan.1 e
      have hBroot : (rightRotate (rightRotate t g) p).root = t.root := by
        rw [rightRotate_root_some (rightRotate t g) p node a b1 hnp c3 b6 b7 b5 bP]
        exact rightRotate_root_some t g p a hgl hpg hapg.2 hg6 hg7 hg5 hparg
      rw [chainOK_iff]
      refine ⟨hnd.sublist hsub, ?_, ?_, ?_, hgetL, ?_⟩
      · rw [nodeAvoid_iff]
        intro b hb
        rw [hBnode.1, hBnode.2.1, hAnode.1]
        refine ⟨(hself b (hmem b hb)).1, fun e => ?_⟩
        have hbp : b = p := (Option.some_injective _ e).symm
        subst hbp
        rcases List.mem_cons.1 hb with e1 | h1
        · exact hnp e1.symm
        · rcases List.mem_cons.1 h1 with e2 | h2
          · exact hpa e2
          · exact hpin h2
      · rw [arcs_cons_iff]
        refine ⟨?_, ?_, ?_⟩
        · rw [linkPairOK_iff]
          refine ⟨by rw [hBnode.2.2]; exact bP, ?_⟩
          rcases hBa.2 with ⟨e1, e2, e3⟩ | ⟨e1, e2, e3⟩
          · exact Or.inl ⟨e1, by rw [e2]; exact e3⟩
          · exact Or.inr ⟨e1, by rw [e2]; exact e3⟩
        · rw [avoidOK_iff]
          intro b hb
          by_cases hbn : b = node
          · exact Or.inl hbn
          · refine Or.inr ?_
            have hbfull := hmem b hb
            have hbnotg : b ≠ g := by
              intro e; subst e
              rcases List.mem_cons.1 hb with e | hb' <;> [exact hng e.symm; skip]
              rcases List.mem_cons.1 hb' with e | hb'' <;> [exact hga e; exact hgin hb'']
            have hother := (haa b hbfull).resolve_left hbnotg
            rcases hBa.2 with ⟨e1, e2, _⟩ | ⟨e1, e2, _⟩
            · rw [e1, e2]
              exact ⟨fun e => hbn (Option.some_injective _ e).symm, hother.2⟩
            · rw [e1, e2]
              exact ⟨hother.1, fun e => hbn (Option.some_injective _ e).symm⟩
        · exact arcs_transfer t (rightRotate (rightRotate t g) p)
            (node :: p :: g :: a :: rest'') (node :: a :: rest'') hmem a rest''
            hBa.1 hBBx harcs4
      · rw [hgetL]
        rcases hroot0mem with e | e
        · rw [e, hBa.1]; exact e ▸ hlast0
        · rw [(hBBx root0 e).2.2]; exact hlast0
      · rw [hBroot]; exact hroot
    · -- zig-zag left-right: leftRotate p then rightRotate g
      rw [if_neg hpl]
      have hAnodeH := leftRotate_heap_r t p node hpr hnp hselfp.1 hselfn.1 hp5 hp6 hp7l
      have hAg := leftRotate_heap_p_left t p node g hpr hnp hselfp.1 hp5 hp6 hp7l hparp hgl
      have hAaF : sameLinks ((leftRotate t p).heap a) (t.heap a) :=
        leftRotate_frame t p node a hpr hnp hselfp.1 hp5 hp6 hp7l
          (Ne.symm hpa) (Ne.symm hna) hselfa.1
          (by rw [hparp]; exact fun e => hga (Option.some_injective _ e))
      have hAx : ∀ x ∈ rest'', sameLinks ((leftRotate t p).heap x) (t.heap x) := by
        intro x hx
        exact leftRotate_frame t p node x hpr hnp hselfp.1 hp5 hp6 hp7l
          (fun e => hpin (e ▸ hx)) (fun e => hnin (e ▸ hx))
          (fun e => (hselfx x hx).1 e)
          (by rw [hparp]; exact fun e => hgin ((Option.some_injective _ e) ▸ hx))
      have b1 : ((leftRotate t p).heap g).left = some node := hAg.1
      have bP : ((leftRotate t p).heap g).parent = some a := by rw [hAg.2.2]; exact hparg
      have b5 : ((leftRotate t p).heap g).parent ≠ some g := by
        rw [bP]; exact fun e => hga (Option.some_injective _ e).symm
      have b6 : ((leftRotate t p).heap g).parent ≠ some node := by
        rw [bP]; exact fun e => hna (Option.some_injective _ e).symm
      have c3 : ((leftRotate t p).heap node).right ≠ some g := by
        rw [hAnodeH.2.1]; exact hselfg.2
      have c4 : ((leftRotate t p).heap node).right ≠ some node := by
        rw [hAnodeH.2.1]; exact hselfn.2
      have b7 : ∀ q, ((leftRotate t p).heap g).parent = some q →
          ((leftRotate t p).heap node).right ≠ some q := by
        intro q hq
        rw [bP] at hq
        have : q = a := Option.some_injective _ hq.symm
        subst this
        rw [hAnodeH.2.1]; exact hselfa.2
      have hBnode := rightRotate_heap_l (leftRotate t p) g node b1 hng c3 c4 b5 b6 b7
      have hBx : ∀ x ∈ rest'', sameLinks ((rightRotate (leftRotate t p) g).heap x)
          ((leftRotate t p).heap x) := by
        intro x hx
        exact rightRotate_frame (leftRotate t p) g node x b1 hng c3 b5 b6 b7
          (fun e => hgin (e ▸ hx)) (fun e => hnin (e ▸ hx))
          (by rw [hAnodeH.2.1]; exact fun e => (hselfx x hx).2 e)
          (by rw [bP]; exact fun e => hain ((Option.some_injective _ e) ▸ hx))
      have hBBx : ∀ x ∈ rest'', sameLinks ((rightRotate (leftRotate t p) g).heap x) (t.heap x) :=
        fun x hx => sameLinks_trans (hBx x hx) (hAx x hx)
      have hBa : (((rightRotate (leftRotate t p) g).heap a).parent = (t.heap a).parent)
          ∧ ((((rightRotate (leftRotate t p) g).heap a).left = some node
              ∧ ((rightRotate (leftRotate t p) g).heap a).right = (t.heap a).right
              ∧ (t.heap a).right ≠ some node)
            ∨ (((rightRotate (leftRotate t p) g).heap a).right = some node
              ∧ ((rightRotate (leftRotate t p) g).heap a).left = (t.heap a).left
              ∧ (t.heap a).left ≠ some node)) := by
        rcases hsidega with ⟨hal, har⟩ | ⟨har, hal⟩
        · -- g was the left child of a
          have hBa2 := rightRotate_heap_p_left (leftRotate t p) g node a b1 hng c3 b5 b6 b7 bP
            (by rw [hAaF.2.1]; exact har)
          refine ⟨hBa2.2.2.trans hAaF.2.2, Or.inl ⟨hBa2.1, hBa2.2.1.trans hAaF.2.1, ?_⟩⟩
          exact fun e => haan.2 e
        · -- g was the right child of a
          have hBa2 := rightRotate_heap_p_right (leftRotate t p) g node a b1 hng c3 b5 b6 b7 bP
            (by rw [hAaF.2.1]; exact har)
          refine ⟨hBa2.2.2.trans hAaF.2.2, Or.inr ⟨hBa2.2.1, hBa2.1.trans hAaF.1, ?_⟩⟩
          exact fun e => haan.1 e
      have hBroot : (rightRotate (leftRotate t p) g).root = t.root := by
        rw [rightRotate_root_some (leftRotate t p) g node a b1 hng c3 b6 b7 b5 bP]
        exact leftRotate_root_some t p node g hpr hnp hselfp.1 hp5 hp6 hp7l hparp
      rw [chainOK_iff]
      refine ⟨hnd.sublist hsub, ?_, ?_, ?_, hgetL, ?_⟩
      · rw [nodeAvoid_iff]
        intro b hb
        rw [hBnode.1, hBnode.2.1, hAnodeH.1]
        constructor
        · intro e
          have hbp : b = p := (Option.some_injective _ e).symm
          subst hbp
          rcases List.mem_cons.1 hb with e1 | h1
          · exact hnp e1.symm
          · rcases List.mem_cons.1 h1 with e2 | h2
            · exact hpa e2
            · exact hpin h2
        · intro e
          have hbg : b = g := (Option.some_injective _ e).symm
          subst hbg
          rcases List.mem_cons.1 hb with e1 | h1
          · exact hng e1.symm
          · rcases List.mem_cons.1 h1 with e2 | h2
            · exact hga e2
            · exact hgin h2
      · rw [arcs_cons_iff]
        refine ⟨?_, ?_, ?_⟩
        · rw [linkPairOK_iff]
          refine ⟨by rw [hBnode.2.2]; exact bP, ?_⟩
          rcases hBa.2 with ⟨e1, e2, e3⟩ | ⟨e1, e2, e3⟩
          · exact Or.inl ⟨e1, by rw [e2]; exact e3⟩
          · exact Or.inr ⟨e1, by rw [e2]; exact e3⟩
        · rw [avoidOK_iff]
          intro b hb
          by_cases hbn : b = node
          · exact Or.inl hbn
          · refine Or.inr ?_
            have hbfull := hmem b hb
            have hbnotg : b ≠ g := by
              intro e; subst e
              rcases List.mem_cons.1 hb with e | hb' <;> [exact hng e.symm; skip]
              rcases List.mem_cons.1 hb' with e | hb'' <;> [exact hga e; exact hgin hb'']
            have hother := (haa b hbfull).resolve_left hbnotg
            rcases hBa.2 with ⟨e1, e2, _⟩ | ⟨e1, e2, _⟩
            · rw [e1, e2]
              exact ⟨fun e => hbn (Option.some_injective _ e).symm, hother.2⟩
            · rw [e1, e2]
              exact ⟨hother.1, fun e => hbn (Option.some_injective _ e).symm⟩
        · exact arcs_transfer t (rightRotate (leftRotate t p) g)
            (node :: p :: g :: a :: rest'') (node :: a :: rest'') hmem a rest''
            hBa.1 hBBx harcs4
      · rw [hgetL]
        rcases hroot0mem with e | e
        · rw [e, hBa.1]; exact e ▸ hlast0
        · rw [(hBBx root0 e).2.2]; exact hlast0
      · rw [hBroot]; exact hroot
  · rw [if_neg hgl, if_pos hgr]
    rcases hsiden with ⟨hpl, hpr⟩ | ⟨hpr, hpl⟩
    · -- zig-zag right-left: rightRotate p then leftRotate g
      rw [if_neg hpr]
      have hAnodeH := rightRotate_heap_l t p node hpl hnp hselfp.2 hselfn.2 hp5 hp6 hp7r
      have hAg := rightRotate_heap_p_right t p node g hpl hnp hselfp.2 hp5 hp6 hp7r hparp hgr
      have hAaF : sameLinks ((rightRotate t p).heap a) (t.heap a) :=
        rightRotate_frame t p node a hpl hnp hselfp.2 hp5 hp6 hp7r
          (Ne.symm hpa) (Ne.symm hna) hselfa.2
          (by rw [hparp]; exact fun e => hga (Option.some_injective _ e))
      have hAx : ∀ x ∈ rest'', sameLinks ((rightRotate t p).heap x) (t.heap x) := by
        intro x hx
        exact rightRotate_frame t p node x hpl hnp hselfp.2 hp5 hp6 hp7r
          (fun e => hpin (e ▸ hx)) (fun e => hnin (e ▸ hx))
          (fun e => (hselfx x hx).2 e)
          (by rw [hparp]; exact fun e => hgin ((Option.some_injective _ e) ▸ hx))
      have b1 : ((rightRotate t p).heap g).right = some node := hAg.2.1
      have bP : ((rightRotate t p).heap g).parent = some a := by rw [hAg.2.2]; exact hparg
      have b5 : ((rightRotate t p).heap g).parent ≠ some g := by
        rw [bP]; exact fun e => hga (Option.some_injective _ e).symm
      have b6 : ((rightRotate t p).heap g).parent ≠ some node := by
        rw [bP]; exact fun e => hna (Option.some_injective _ e).symm
      have c3 : ((rightRotate t p).heap node).left ≠ some g := by
        rw [hAnodeH.1]; exact hselfg.1
      have c4 : ((rightRotate t p).heap node).left ≠ some node := by
        rw [hAnodeH.1]; exact hselfn.1
      have b7 : ∀ q, ((rightRotate t p).heap g).parent = some q →
          ((rightRotate t p).heap node).left ≠ some q := by
        intro q hq
        rw [bP] at hq
        have : q = a := Option.some_injective _ hq.symm
        subst this
        rw [hAnodeH.1]; exact hselfa.1
      have hBnode := leftRotate_heap_r (rightRotate t p) g node b1 hng c3 c4 b5 b6 b7
      have hBx : ∀ x ∈ rest'', sameLinks ((leftRotate (rightRotate t p) g).heap x)
          ((rightRotate t p).heap x) := by
        intro x hx
        exact leftRotate_frame (rightRotate t p) g node x b1 hng c3 b5 b6 b7
          (fun e => hgin (e ▸ hx)) (fun e => hnin (e ▸ hx))
          (by rw [hAnodeH.1]; exact fun e => (hselfx x hx).1 e)
          (by rw [bP]; exact fun e => hain ((Option.some_injective _ e) ▸ hx))
      have hBBx : ∀ x ∈ rest'', sameLinks ((leftRotate (rightRotate t p) g).heap x) (t.heap x) :=
        fun x hx => sameLinks_trans (hBx x hx) (hAx x hx)
      have hBa : (((leftRotate (rightRotate t p) g).heap a).parent = (t.heap a).parent)
          ∧ ((((leftRotate (rightRotate t p) g).heap a).left = some node
              ∧ ((leftRotate (rightRotate t p) g).heap a).right = (t.heap a).right
              ∧ (t.heap a).right ≠ some node)
            ∨ (((leftRotate (rightRotate t p) g).heap a).right = some node
              ∧ ((leftRotate (rightRotate t p) g).heap a).left = (t.heap a).left
              ∧ (t.heap a).left ≠ some node)) := by
        rcases hsidega with ⟨hal, har⟩ | ⟨har, hal⟩
        · -- g was the left child of a
          have hBa2 := leftRotate_heap_p_left (rightRotate t p) g node a b1 hng c3 b5 b6 b7 bP
            (by rw [hAaF.1]; exact hal)
          refine ⟨hBa2.2.2.trans hAaF.2.2, Or.inl ⟨hBa2.1, hBa2.2.1.trans hAaF.2.1, ?_⟩⟩
          exact fun e => haan.2 e
        · -- g was the right child of a
          have hBa2 := leftRotate_heap_p_right (rightRotate t p) g node a b1 hng c3 b5 b6 b7 bP
            (by rw [hAaF.1]; exact hal)
          refine ⟨hBa2.2.2.trans hAaF.2.2, Or.inr ⟨hBa2.2.1, hBa2.1.trans hAaF.1, ?_⟩⟩
          exact fun e => haan.1 e
      have hBroot : (leftRotate (rightRotate t p) g).root = t.root := by
        rw [leftRotate_root_some (rightRotate t p) g node a b1 hng c3 b5 b6 b7 bP]
        exact rightRotate_root_some t p node g hpl hnp hselfp.2 hp6 hp7r hp5 hparp
      rw [chainOK_iff]
      refine ⟨hnd.sublist hsub, ?_, ?_, ?_, hgetL, ?_⟩
      · rw [nodeAvoid_iff]
        intro b hb
        rw [hBnode.1, hBnode.2.1, hAnodeH.2.1]
        constructor
        · intro e
          have hbg : b = g := (Option.some_injective _ e).symm
          subst hbg
          rcases List.mem_cons.1 hb with e1 | h1
          · exact hng e1.symm
          · rcases List.mem_cons.1 h1 with e2 | h2
            · exact hga e2
            · exact hgin h2
        · intro e
          have hbp : b = p := (Option.some_injective _ e).symm
          subst hbp
          rcases List.mem_cons.1 hb with e1 | h1
          · exact hnp e1.symm
          · rcases List.mem_cons.1 h1 with e2 | h2
            · exact hpa e2
            · exact hpin h2
      · rw [arcs_cons_iff]
        refine ⟨?_, ?_, ?_⟩
        · rw [linkPairOK_iff]
          refine ⟨by rw [hBnode.2.2]; exact bP, ?_⟩
          rcases hBa.2 with ⟨e1, e2, e3⟩ | ⟨e1, e2, e3⟩
          · exact Or.inl ⟨e1, by rw [e2]; exact e3⟩
          · exact Or.inr ⟨e1, by rw [e2]; exact e3⟩
        · rw [avoidOK_iff]
          intro b hb
          by_cases hbn : b = node
          · exact Or.inl hbn
          · refine Or.inr ?_
            have hbfull := hmem b hb
            have hbnotg : b ≠ g := by
              intro e; subst e
              rcases List.mem_cons.1 hb with e | hb' <;> [exact hng e.symm; skip]
              rcases List.mem_cons.1 hb' with e | hb'' <;> [exact hga e; exact hgin hb'']
            have hother := (haa b hbfull).resolve_left hbnotg
            rcases hBa.2 with ⟨e1, e2, _⟩ | ⟨e1, e2, _⟩
            · rw [e1, e2]
              exact ⟨fun e => hbn (Option.some_injective _ e).symm, hother.2⟩
            · rw [e1, e2]
              exact ⟨hother.1, fun e => hbn (Option.some_injective _ e).symm⟩
        · exact arcs_transfer t (leftRotate (rightRotate t p) g)
            (node :: p :: g :: a :: rest'') (node :: a :: rest'') hmem a rest''
            hBa.1 hBBx harcs4
      · rw [hgetL]
        rcases hroot0mem with e | e
        · rw [e, hBa.1]; exact e ▸ hlast0
        · rw [(hBBx root0 e).2.2]; exact hlast0
      · rw [hBroot]; exact hroot
    · -- zig-zig right-right: leftRotate g then leftRotate p
      rw [if_pos hpr]
      have hAp := leftRotate_heap_r t g p hgr hpg hapg.1 happ.1 hg5 hg6 hg7l
      have hAnode := leftRotate_frame t g p node hgr hpg hapg.1 hg5 hg6 hg7l hng hnp hpl hg6n
      have hAx : ∀ x ∈ rest'', sameLinks ((leftRotate t g).heap x) (t.heap x) := by
        intro x hx
        exact leftRotate_frame t g p x hgr hpg hapg.1 hg5 hg6 hg7l
          (fun e => hgin (e ▸ hx)) (fun e => hpin (e ▸ hx))
          (fun e => (hapx x hx).1 e)
          (by rw [hparg]; exact fun e => hain ((Option.some_injective _ e) ▸ hx))
      have b1 : ((leftRotate t g).heap p).right = some node := by rw [hAp.2.1]; exact hpr
      have bP : ((leftRotate t g).heap p).parent = some a := by rw [hAp.2.2]; exact hparg
      have b5 : ((leftRotate t g).heap p).parent ≠ some p := by
        rw [bP]; exact fun e => hpa (Option.some_injective _ e).symm
      have b6 : ((leftRotate t g).heap p).parent ≠ some node := by
        rw [bP]; exact fun e => hna (Option.some_injective _ e).symm
      have c3 : ((leftRotate t g).heap node).left ≠ some p := by
        rw [hAnode.1]; exact hselfp.1
      have c4 : ((leftRotate t g).heap node).left ≠ some node := by
        rw [hAnode.1]; exact hselfn.1
      have b7 : ∀ q, ((leftRotate t g).heap p).parent = some q →
          ((leftRotate t g).heap node).left ≠ some q := by
        intro q hq
        rw [bP] at hq
        have : q = a := Option.some_injective _ hq.symm
        subst this
        rw [hAnode.1]; exact hselfa.1
      have hBnode := leftRotate_heap_r (leftRotate t g) p node b1 hnp c3 c4 b5 b6 b7
      have hBx : ∀ x ∈ rest'', sameLinks ((leftRotate (leftRotate t g) p).heap x)
          ((leftRotate t g).heap x) := by
        intro x hx
        exact leftRotate_frame (leftRotate t g) p node x b1 hnp c3 b5 b6 b7
          (fun e => hpin (e ▸ hx)) (fun e => hnin (e ▸ hx))
          (by rw [hAnode.1]; exact fun e => (hselfx x hx).1 e)
          (by rw [bP]; exact fun e => hain ((Option.some_injective _ e) ▸ hx))
      have hBBx : ∀ x ∈ rest'', sameLinks ((leftRotate (leftRotate t g) p).heap x) (t.heap x) :=
        fun x hx => sameLinks_trans (hBx x hx) (hAx x hx)
      have hBa : (((leftRotate (leftRotate t g) p).heap a).parent = (t.heap a).parent)
          ∧ ((((leftRotate (leftRotate t g) p).heap a).left = some node
              ∧ ((leftRotate (leftRotate t g) p).heap a).right = (t.heap a).right
              ∧ (t.heap a).right ≠ some node)
            ∨ (((leftRotate (leftRotate t g) p).heap a).right = some node
              ∧ ((leftRotate (leftRotate t g) p).heap a).left = (t.heap a).left
              ∧ (t.heap a).left ≠ some node)) := by
        rcases hsidega with ⟨hal, har⟩ | ⟨har, hal⟩
        · -- g was the left child of a
          have hAa := leftRotate_heap_p_left t g p a hgr hpg hapg.1 hg5 hg6 hg7l hparg hal
          have hBa2 := leftRotate_heap_p_left (leftRotate t g) p node a b1 hnp c3 b5 b6 b7 bP
            (by rw [hAa.1])
          refine ⟨hBa2.2.2.trans hAa.2.2, Or.inl ⟨hBa2.1, hBa2.2.1.trans hAa.2.1, ?_⟩⟩
          exact fun e => haan.2 e
        · -- g was the right child of a
          have hAa := leftRotate_heap_p_right t g p a hgr hpg hapg.1 hg5 hg6 hg7l hparg
            (by rw [← har] at hal ⊢; exact hal)
          have hBa2 := leftRotate_heap_p_right (leftRotate t g) p node a b1 hnp c3 b5 b6 b7 bP
            (by rw [hAa.1]; exact fun e => haap.1 e)
          refine ⟨hBa2.2.2.trans hAa.2.2, Or.inr ⟨hBa2.2.1, hBa2.1.trans hAa.1, ?_⟩⟩
          exact fun e => haan.1 e
      have hBroot : (leftRotate (leftRotate t g) p).root = t.root := by
        rw [leftRotate_root_some (leftRotate t g) p node a b1 hnp c3 b5 b6 b7 bP]
        exact leftRotate_root_some t g p a hgr hpg hapg.1 hg5 hg6 hg7l hparg
      rw [chainOK_iff]
      refine ⟨hnd.sublist hsub, ?_, ?_, ?_, hgetL, ?_⟩
      · rw [nodeAvoid_iff]
        intro b hb
        rw [hBnode.1, hBnode.2.1, hAnode.2.1]
        constructor
        · intro e
          have hbp : b = p := (Option.some_injective _ e).symm
          subst hbp
          rcases List.mem_cons.1 hb with e1 | h1
          · exact hnp e1.symm
          · rcases List.mem_cons.1 h1 with e2 | h2
            · exact hpa e2
            · exact hpin h2
        · exact (hself b (hmem b hb)).2
      · rw [arcs_cons_iff]
        refine ⟨?_, ?_, ?_⟩
        · rw [linkPairOK_iff]
          refine ⟨by rw [hBnode.2.2]; exact bP, ?_⟩
          rcases hBa.2 with ⟨e1, e2, e3⟩ | ⟨e1, e2, e3⟩
          · exact Or.inl ⟨e1, by rw [e2]; exact e3⟩
          · exact Or.inr ⟨e1, by rw [e2]; exact e3⟩
        · rw [avoidOK_iff]
          intro b hb
          by_cases hbn : b = node
          · exact Or.inl hbn
          · refine Or.inr ?_
            have hbfull := hmem b hb
            have hbnotg : b ≠ g := by
              intro e; subst e
              rcases List.mem_cons.1 hb with e | hb' <;> [exact hng e.symm; skip]
              rcases List.mem_cons.1 hb' with e | hb'' <;> [exact hga e; exact hgin hb'']
            have hother := (haa b hbfull).resolve_left hbnotg
            rcases hBa.2 with ⟨e1, e2, _⟩ | ⟨e1, e2, _⟩
            · rw [e1, e2]
              exact ⟨fun e => hbn (Option.some_injective _ e).symm, hother.2⟩
            · rw [e1, e2]
              exact ⟨hother.1, fun e => hbn (Option.some_injective _ e).symm⟩
        · exact arcs_transfer t (leftRotate (leftRotate t g) p)
            (node :: p :: g :: a :: rest'') (node :: a :: rest'') hmem a rest''
            hBa.1 hBBx harcs4
      · rw [hgetL]
        rcases hroot0mem with e | e
        · rw [e, hBa.1]; exact e ▸ hlast0
        · rw [(hBBx root0 e).2.2]; exact hlast0
      · rw [hBroot]; exact hroot

end ST

namespace ST

variable {α : Type}

theorem splayGo_succ (node root0 f : Nat) (t : STree α) :
    splayGo node root0 (f + 1) t =
      if t.root = some node then some t
      else splayGo node root0 f (splayStep t node root0) := rfl

theorem chainOK_step (t : STree α) (node p g : Nat) (rest' : List Nat) (root0 : Nat)
    (h : chainOK t node (p :: g :: rest') root0 = true) :
    chainOK (splayStep t node root0) node rest' root0 = true := by
  cases rest' with
  | nil => exact chainOK_step_nil t node p g root0 h
  | cons a rest'' => exact chainOK_step_cons t node p g a rest'' root0 h

theorem splayGo_mono (node root0 : Nat) : ∀ (f : Nat) (t t' : STree α),
    splayGo node root0 f t = some t' → ∀ k, splayGo node root0 (f + k) t = some t'
  | 0, t, t', h => absurd h (by simp [splayGo])
  | f + 1, t, t', h => by
    intro k
    rw [splayGo] at h
    have hfk : f + 1 + k = (f + k) + 1 := by omega
    rw [hfk, splayGo]
    by_cases hr : t.root = some node
    · rw [if_pos hr] at h; rw [if_pos hr]; exact h
    · rw [if_neg hr] at h; rw [if_neg hr]; exact splayGo_mono node root0 f _ t' h k

theorem chainOK_root_ne (t : STree α) (node a : Nat) (rest : List Nat) (root0 : Nat)
    (h : chainOK t node (a :: rest) root0 = true) :
    t.root = some root0 ∧ t.root ≠ some node := by
  have hh := (chainOK_iff t node (a :: rest) root0).1 h
  obtain ⟨hnd, _, _, hterm⟩ := hh
  obtain ⟨hl, he, hr⟩ := hterm
  refine ⟨hr, ?_⟩
  rw [hr]
  intro e
  have hrn : root0 = node := Option.some_injective _ e
  subst hrn
  have : root0 ∈ a :: rest := he ▸ getLastD_mem (a :: rest) root0 (by simp)
  exact (List.nodup_cons.1 hnd).1 this

theorem splayGo_chain (node root0 : Nat) :
    ∀ (rest : List Nat) (t : STree α), chainOK t node rest root0 = true →
      ∃ t', splayGo node root0 (rest.length + 1) t = some t' ∧ t'.root = some node
  | [], t, h => by
    have hh := (chainOK_iff t node [] root0).1 h
    exact ⟨t, by rw [splayGo_succ, if_pos hh.2.2.2], hh.2.2.2⟩
  | [r0], t, h => by
    have hne := chainOK_root_ne t node r0 [] root0 h
    have h2 := chainOK_zig t node r0 root0 h
    have hroot' := ((chainOK_iff _ node [] root0).1 h2).2.2.2
    refine ⟨splayStep t node root0, ?_, hroot'⟩
    simp only [List.length_cons, List.length_nil]
    rw [splayGo_succ, if_neg hne.2, splayGo_succ, if_pos hroot']
  | p :: g :: rest', t, h => by
    have hne := chainOK_root_ne t node p (g :: rest') root0 h
    have h2 := chainOK_step t node p g rest' root0 h
    obtain ⟨t', ht', hr'⟩ := splayGo_chain node root0 rest' (splayStep t node root0) h2
    refine ⟨t', ?_, hr'⟩
    have hlen : (p :: g :: rest').length + 1 = (rest'.length + 1 + 1) + 1 := by simp
    rw [hlen, splayGo_succ, if_neg hne.2]
    exact splayGo_mono node root0 (rest'.length + 1) _ t' ht' 1

end ST

namespace ST

variable {α : Type}

/-- Pure shapes of well-formed trees: an inductive binary tree of node ids. -/
inductive Shp where
  | leaf : Shp
  | node : Shp → Nat → Shp → Shp

/-- All ids of a shape, in symmetric order. -/
def Shp.ids : Shp → List Nat
  | .leaf => []
  | .node l i r => Shp.ids l ++ i :: Shp.ids r

/-- The heap agrees with shape `s` below link `link` whose parent is `par`:
this is the section-3 well-formedness of the tree (parent consistency, no
cycles, unique ownership) stated against an explicit shape witness. -/
def agreesAt (t : STree α) : Option Nat → Option Nat → Shp → Bool
  | _, none, .leaf => true
  | _, none, .node _ _ _ => false
  | _, some _, .leaf => false
  | par, some i, .node l j r =>
    decide (i = j) && decide ((t.heap i).parent = par)
    && agreesAt t (some i) (t.heap i).left l
    && agreesAt t (some i) (t.heap i).right r

/-- Ancestor chain of `tgt` inside shape `s`, bottom-up and excluding
`tgt` itself; `none` when `tgt` does not occur in `s`. -/
def findChain : Shp → Nat → Option (List Nat)
  | .leaf, _ => none
  | .node l i r, tgt =>
    if i = tgt then some []
    else
      match findChain l tgt with
      | some c => some (c ++ [i])
      | none =>
        match findChain r tgt with
        | some c => some (c ++ [i])
        | none => none

theorem getLastD_concat_own : ∀ (c : List Nat) (d j : Nat), (c ++ [j]).getLastD d = j
  | [], _, _ => rfl
  | a :: c, d, j => by
    rw [List.cons_append, List.getLastD_cons]
    exact getLastD_concat_own c a j

theorem getLastD_mem_cons : ∀ (c : List Nat) (d : Nat), c.getLastD d ∈ d :: c
  | [], d => by simp
  | a :: c, d => by
    rw [List.getLastD_cons]
    exact List.mem_cons_of_mem d (getLastD_mem_cons c a)

theorem agreesRoot (t : STree α) : ∀ (s : Shp) (par link : Option Nat),
    agreesAt t par link s = true → ∀ y, link = some y → y ∈ s.ids := by
  intro s par link h y hy
  subst hy
  cases s with
  | leaf => simp [agreesAt] at h
  | node l j r =>
    simp only [agreesAt, Bool.and_eq_true, decide_eq_true_eq] at h
    obtain ⟨⟨⟨hj, _⟩, _⟩, _⟩ := h
    subst hj
    simp [Shp.ids]

theorem arcs_extend (t : STree α) (full : List Nat) (i : Nat) :
    ∀ (c : List Nat) (tgt : Nat),
      arcs t full tgt c = true →
      (∀ a ∈ c, (t.heap a).left ≠ some i ∧ (t.heap a).right ≠ some i) →
      arcs t (full ++ [i]) tgt c = true
  | [], _, _, _ => rfl
  | a :: c, tgt, h, hlinks => by
    rw [arcs_cons_iff] at h
    obtain ⟨h1, h2, h3⟩ := h
    rw [arcs_cons_iff]
    refine ⟨h1, ?_, arcs_extend t full i c a h3 (fun x hx => hlinks x (List.mem_cons_of_mem a hx))⟩
    rw [avoidOK_iff] at h2 ⊢
    intro b hb
    rcases List.mem_append.1 hb with hb' | hb'
    · exact h2 b hb'
    · simp only [List.mem_singleton] at hb'
      subst hb'
      exact Or.inr (hlinks a (List.mem_cons_self a c))

theorem arcs_concat (t : STree α) (full : List Nat) :
    ∀ (c : List Nat) (tgt j : Nat),
      arcs t full tgt c = true →
      linkPairOK t (c.getLastD tgt) j = true →
      avoidOK t j (c.getLastD tgt) full = true →
      arcs t full tgt (c ++ [j]) = true
  | [], tgt, j, _, hlp, hav => by
    rw [List.nil_append, arcs_cons_iff]
    exact ⟨by simpa using hlp, by simpa using hav, rfl⟩
  | a :: c, tgt, j, h, hlp, hav => by
    rw [arcs_cons_iff] at h
    obtain ⟨h1, h2, h3⟩ := h
    rw [List.cons_append, arcs_cons_iff]
    rw [List.getLastD_cons] at hlp hav
    exact ⟨h1, h2, arcs_concat t full c a j h3 hlp hav⟩

end ST

namespace ST

variable {α : Type}

theorem chain_of_shape (t : STree α) (tgt : Nat) : ∀ (s : Shp) (par link : Option Nat) (rest : List Nat),
    agreesAt t par link s = true → s.ids.Nodup → findChain s tgt = some rest →
    link = some (rest.getLastD tgt)
    ∧ (t.heap (rest.getLastD tgt)).parent = par
    ∧ (tgt :: rest).Nodup
    ∧ (∀ x ∈ tgt :: rest, x ∈ s.ids)
    ∧ (∀ x ∈ tgt :: rest, (∀ y, (t.heap x).left = some y → y ∈ s.ids)
        ∧ (∀ y, (t.heap x).right = some y → y ∈ s.ids))
    ∧ arcs t (tgt :: rest) tgt rest = true
    ∧ nodeAvoid t tgt (tgt :: rest) = true := by
  intro s
  induction s with
  | leaf => intro par link rest _ _ hfc; simp [findChain] at hfc
  | node l i r ihl ihr =>
    intro par link rest hag hnd hfc
    cases link with
    | none => simp [agreesAt] at hag
    | some i =>
      simp only [agreesAt, Bool.and_eq_true, decide_eq_true_eq] at hag
      obtain ⟨⟨⟨hij, hpar⟩, hagl⟩, hagr⟩ := hag
      subst hij
      have hnd' : (Shp.ids l ++ i :: Shp.ids r).Nodup := hnd
      rw [List.nodup_append] at hnd'
      obtain ⟨hndl, hndjr, hdisj⟩ := hnd'
      have hndr : (Shp.ids r).Nodup := (List.nodup_cons.1 hndjr).2
      have hjnotr : i ∉ Shp.ids r := (List.nodup_cons.1 hndjr).1
      have hjnotl : i ∉ Shp.ids l := fun hx => hdisj hx (List.mem_cons_self i _)
      have hdislr : ∀ x ∈ Shp.ids l, x ∉ Shp.ids r :=
        fun x hx hx2 => hdisj hx (List.mem_cons_of_mem i hx2)
      simp only [findChain] at hfc
      by_cases hjt : i = tgt
      · subst hjt
        rw [if_pos rfl] at hfc
        have hrest : rest = [] := by injection hfc with e; exact e.symm
        subst hrest
        refine ⟨rfl, hpar, by simp, by simp [Shp.ids], ?_, rfl, ?_⟩
        · intro x hx
          simp only [List.mem_singleton] at hx
          subst hx
          constructor
          · intro y hy
            have := agreesRoot t l (some x) ((t.heap x).left) hagl y hy
            simp [Shp.ids, this]
          · intro y hy
            have := agreesRoot t r (some x) ((t.heap x).right) hagr y hy
            simp [Shp.ids, this]
        · rw [nodeAvoid_iff]
          intro b hb
          simp only [List.mem_singleton] at hb
          subst hb
          constructor
          · intro e
            exact hjnotl (agreesRoot t l (some b) ((t.heap b).left) hagl b e)
          · intro e
            exact hjnotr (agreesRoot t r (some b) ((t.heap b).right) hagr b e)
      · rw [if_neg hjt] at hfc
        cases hl : findChain l tgt with
        | some c =>
          rw [hl] at hfc
          have hrest : rest = c ++ [i] := by injection hfc with e; exact e.symm
          subst hrest
          obtain ⟨ih1, ih2, ih3, ih4, ih5, ih6, ih7⟩ :=
            ihl (some i) ((t.heap i).left) c hagl hndl hl
          have htop : (c ++ [i]).getLastD tgt = i := getLastD_concat_own c tgt i
          have htopmem : c.getLastD tgt ∈ tgt :: c := getLastD_mem_cons c tgt
          have hsubl : ∀ x ∈ tgt :: c, x ∈ Shp.ids l := ih4
          have hmemids : ∀ x ∈ tgt :: (c ++ [i]), x ∈ Shp.ids (.node l i r) := by
            intro x hx
            rcases List.mem_cons.1 hx with e | hx'
            · subst e; exact List.mem_append_left _ (hsubl x (by simp))
            · rcases List.mem_append.1 hx' with hx'' | hx''
              · exact List.mem_append_left _ (hsubl x (List.mem_cons_of_mem tgt hx''))
              · simp only [List.mem_singleton] at hx''
                subst hx''
                simp [Shp.ids]
          refine ⟨by rw [htop], by rw [htop]; exact hpar, ?_, hmemids, ?_, ?_, ?_⟩
          · rw [show tgt :: (c ++ [i]) = (tgt :: c) ++ [i] from rfl, List.nodup_append]
            refine ⟨ih3, by simp, ?_⟩
            intro x hx hx2
            simp only [List.mem_singleton] at hx2
            subst hx2
            exact hjnotl (hsubl x hx)
          · intro x hx
            rcases List.mem_cons.1 hx with e | hx'
            · subst e
              have := ih5 x (by simp)
              exact ⟨fun y hy => List.mem_append_left _ (this.1 y hy),
                     fun y hy => List.mem_append_left _ (this.2 y hy)⟩
            · rcases List.mem_append.1 hx' with hx'' | hx''
              · have := ih5 x (List.mem_cons_of_mem tgt hx'')
                exact ⟨fun y hy => List.mem_append_left _ (this.1 y hy),
                       fun y hy => List.mem_append_left _ (this.2 y hy)⟩
              · simp only [List.mem_singleton] at hx''
                subst hx''
                constructor
                · intro y hy
                  rw [ih1] at hy
                  have hyv : y = c.getLastD tgt := (Option.some_injective _ hy).symm
                  subst hyv
                  exact List.mem_append_left _ (hsubl _ htopmem)
                · intro y hy
                  have := agreesRoot t r (some x) ((t.heap x).right) hagr y hy
                  simp [Shp.ids, this]
          · rw [show tgt :: (c ++ [i]) = (tgt :: c) ++ [i] from rfl]
            refine arcs_concat t ((tgt :: c) ++ [i]) c tgt i ?_ ?_ ?_
            · refine arcs_extend t (tgt :: c) i c tgt ih6 ?_
              intro a ha
              have := ih5 a (List.mem_cons_of_mem tgt ha)
              exact ⟨fun e => hjnotl (this.1 i e), fun e => hjnotl (this.2 i e)⟩
            · rw [linkPairOK_iff]
              refine ⟨ih2, Or.inl ⟨ih1, ?_⟩⟩
              intro e
              have hmr := agreesRoot t r (some i) ((t.heap i).right) hagr _ e
              exact hdislr _ (hsubl _ htopmem) hmr
            · rw [avoidOK_iff]
              intro b hb
              by_cases hbt : b = c.getLastD tgt
              · exact Or.inl hbt
              · refine Or.inr ⟨?_, ?_⟩
                · rw [ih1]
                  exact fun e => hbt (Option.some_injective _ e).symm
                · intro e
                  have hmr := agreesRoot t r (some i) ((t.heap i).right) hagr b e
                  rcases List.mem_append.1 hb with hb' | hb'
                  · exact hdislr b (hsubl b hb') hmr
                  · simp only [List.mem_singleton] at hb'
                    subst hb'
                    exact hjnotr hmr
          · rw [nodeAvoid_iff]
            intro b hb
            have hselftgt := (nodeAvoid_iff t tgt (tgt :: c)).1 ih7
            rcases List.mem_cons.1 hb with e | hb'
            · subst e; exact hselftgt b (by simp)
            · rcases List.mem_append.1 hb' with hb'' | hb''
              · exact hselftgt b (List.mem_cons_of_mem tgt hb'')
              · simp only [List.mem_singleton] at hb''
                subst hb''
                have := ih5 tgt (by simp)
                exact ⟨fun e => hjnotl (this.1 b e), fun e => hjnotl (this.2 b e)⟩
        | none =>
          rw [hl] at hfc
          cases hr : findChain r tgt with
          | none => rw [hr] at hfc; exact absurd hfc (by simp)
          | some c =>
            rw [hr] at hfc
            have hrest : rest = c ++ [i] := by injection hfc with e; exact e.symm
            subst hrest
            obtain ⟨ih1, ih2, ih3, ih4, ih5, ih6, ih7⟩ :=
              ihr (some i) ((t.heap i).right) c hagr hndr hr
            have htop : (c ++ [i]).getLastD tgt = i := getLastD_concat_own c tgt i
            have htopmem : c.getLastD tgt ∈ tgt :: c := getLastD_mem_cons c tgt
            have hsubr : ∀ x ∈ tgt :: c, x ∈ Shp.ids r := ih4
            have hmemids : ∀ x ∈ tgt :: (c ++ [i]), x ∈ Shp.ids (.node l i r) := by
              intro x hx
              rcases List.mem_cons.1 hx with e | hx'
              · subst e
                exact List.mem_append_right _ (List.mem_cons_of_mem i (hsubr x (by simp)))
              · rcases List.mem_append.1 hx' with hx'' | hx''
                · exact List.mem_append_right _
                    (List.mem_cons_of_mem i (hsubr x (List.mem_cons_of_mem tgt hx'')))
                · simp only [List.mem_singleton] at hx''
                  subst hx''
                  simp [Shp.ids]
            refine ⟨by rw [htop], by rw [htop]; exact hpar, ?_, hmemids, ?_, ?_, ?_⟩
            · rw [show tgt :: (c ++ [i]) = (tgt :: c) ++ [i] from rfl, List.nodup_append]
              refine ⟨ih3, by simp, ?_⟩
              intro x hx hx2
              simp only [List.mem_singleton] at hx2
              subst hx2
              exact hjnotr (hsubr x hx)
            · intro x hx
              rcases List.mem_cons.1 hx with e | hx'
              · subst e
                have := ih5 x (by simp)
                exact ⟨fun y hy => List.mem_append_right _ (List.mem_cons_of_mem i (this.1 y hy)),
                       fun y hy => List.mem_append_right _ (List.mem_cons_of_mem i (this.2 y hy))⟩
              · rcases List.mem_append.1 hx' with hx'' | hx''
                · have := ih5 x (List.mem_cons_of_mem tgt hx'')
                  exact ⟨fun y hy => List.mem_append_right _ (List.mem_cons_of_mem i (this.1 y hy)),
                         fun y hy => List.mem_append_right _ (List.mem_cons_of_mem i (this.2 y hy))⟩
                · simp only [List.mem_singleton] at hx''
                  subst hx''
                  constructor
                  · intro y hy
                    have := agreesRoot t l (some x) ((t.heap x).left) hagl y hy
                    simp [Shp.ids, this]
                  · intro y hy
                    rw [ih1] at hy
                    have hyv : y = c.getLastD tgt := (Option.some_injective _ hy).symm
                    subst hyv
                    exact List.mem_append_right _ (List.mem_cons_of_mem x (hsubr _ htopmem))
            · rw [show tgt :: (c ++ [i]) = (tgt :: c) ++ [i] from rfl]
              refine arcs_concat t ((tgt :: c) ++ [i]) c tgt i ?_ ?_ ?_
              · refine arcs_extend t (tgt :: c) i c tgt ih6 ?_
                intro a ha
                have := ih5 a (List.mem_cons_of_mem tgt ha)
                exact ⟨fun e => hjnotr (this.1 i e), fun e => hjnotr (this.2 i e)⟩
              · rw [linkPairOK_iff]
                refine ⟨ih2, Or.inr ⟨ih1, ?_⟩⟩
                intro e
                have hml := agreesRoot t l (some i) ((t.heap i).left) hagl _ e
                exact hdislr _ hml (hsubr _ htopmem)
              · rw [avoidOK_iff]
                intro b hb
                by_cases hbt : b = c.getLastD tgt
                · exact Or.inl hbt
                · refine Or.inr ⟨?_, ?_⟩
                  · intro e
                    have hml := agreesRoot t l (some i) ((t.heap i).left) hagl b e
                    rcases List.mem_append.1 hb with hb' | hb'
                    · exact hdislr b hml (hsubr b hb')
                    · simp only [List.mem_singleton] at hb'
                      subst hb'
                      exact hjnotl hml
                  · rw [ih1]
                    exact fun e => hbt (Option.some_injective _ e).symm
            · rw [nodeAvoid_iff]
              intro b hb
              have hselftgt := (nodeAvoid_iff t tgt (tgt :: c)).1 ih7
              rcases List.mem_cons.1 hb with e | hb'
              · subst e; exact hselftgt b (by simp)
              · rcases List.mem_append.1 hb' with hb'' | hb''
                · exact hselftgt b (List.mem_cons_of_mem tgt hb'')
                · simp only [List.mem_singleton] at hb''
                  subst hb''
                  have := ih5 tgt (by simp)
                  exact ⟨fun e => hjnotr (this.1 b e), fun e => hjnotr (this.2 b e)⟩

end ST

namespace ST

variable {α : Type}

theorem chainOK_of_shape (t : STree α) (s : Shp) (tgt : Nat) (rest : List Nat)
    (hag : agreesAt t none t.root s = true) (hnd : s.ids.Nodup)
    (hfc : findChain s tgt = some rest) :
    t.root = some (rest.getLastD tgt) ∧ chainOK t tgt rest (rest.getLastD tgt) = true := by
  obtain ⟨h1, h2, h3, _, _, h6, h7⟩ := chain_of_shape t tgt s none t.root rest hag hnd hfc
  refine ⟨h1, ?_⟩
  rw [chainOK_iff]
  refine ⟨h3, h7, h6, ?_⟩
  cases rest with
  | nil => simpa using h1
  | cons a rest' => exact ⟨h2, rfl, by rw [h1]⟩

/-- Claim C9: on an empty tree `splay` is a no-op; on a well-formed tree
(witnessed by a shape whose ids are distinct, which is exactly the
section-3 invariants) with `node` reachable at depth `d = rest.length`,
the splay loop ends with `node` as the tree root within `d` iterations
(fuel `d + 1` suffices, each loop pass consuming one unit); and every
iteration on a consistent ancestor chain shortens the node's depth by
exactly 1 (zig) or 2 (zig-zig / zig-zag). -/
theorem c9_splay_terminates :
    (∀ (u : STree Nat) (f m : Nat), u.root = none → splay f u m = some u)
    ∧ (∀ (t : STree Nat) (s : Shp) (node : Nat) (rest : List Nat),
        agreesAt t none t.root s = true → s.ids.Nodup → findChain s node = some rest →
        ∃ t', splay (rest.length + 1) t node = some t' ∧ t'.root = some node)
    ∧ (∀ (u : STree Nat) (m r0 : Nat) (rs : List Nat),
        chainOK u m rs r0 = true → rs ≠ [] →
        ∃ rs', chainOK (splayStep u m r0) m rs' r0 = true
          ∧ (rs.length = rs'.length + 1 ∨ rs.length = rs'.length + 2)) := by
  refine ⟨?_, ?_, ?_⟩
  · intro u f m h
    simp [splay, h]
  · intro t s node rest hag hnd hfc
    obtain ⟨hroot, hchain⟩ := chainOK_of_shape t s node rest hag hnd hfc
    obtain ⟨t', ht', hr'⟩ := splayGo_chain node (rest.getLastD node) rest t hchain
    refine ⟨t', ?_, hr'⟩
    simp only [splay, hroot]
    exact ht'
  · intro u m r0 rs h hne
    match rs, hne with
    | [r], _ => exact ⟨[], chainOK_zig u m r r0 h, Or.inl (by simp)⟩
    | p :: g :: rest', _ =>
      exact ⟨rest', chainOK_step u m p g rest' r0 h, Or.inr (by simp)⟩

/-- Well-formed three-node left spine: 0 holds 10, its left child 1 holds
5, whose left child 2 holds 2. -/
def tW : STree Nat :=
  { heap := fun j =>
      if j = 0 then ⟨10, some 1, none, none⟩
      else if j = 1 then ⟨5, some 2, none, some 0⟩
      else if j = 2 then ⟨2, none, none, some 1⟩
      else ⟨0, none, none, none⟩
    root := some 0
    next := 3 }

/-- Shape witness for `tW`. -/
def sW : Shp := Shp.node (Shp.node (Shp.node Shp.leaf 2 Shp.leaf) 1 Shp.leaf) 0 Shp.leaf

/-- Witness for claim C9: splaying the depth-2 node of the concrete
well-formed tree `tW` terminates with fuel 3 and makes it the root. -/
theorem c9_witness : ∃ t', splay 3 tW 2 = some t' ∧ t'.root = some 2 :=
  c9_splay_terminates.2.1 tW sW 2 [1, 0] (by decide) (by decide) (by decide)

end ST
